import Mathlib

/-!
# Verification of the llmrouter core against its specification

This file gives a shallow embedding, in Lean 4, of the parts of the
`llmrouter` Go library that the specification's quantified claims are about:

* the JSON repair routine (`internal/util/jsonrepair.go`),
* the typed decode surface `Execute[T]` (`api.go`),
* model selection (`router.go`, `selectModel`),
* the tool-loop orchestrator (`router.go`, `executeInternal`) together with
  the message mapping helpers (`mapMessages`, `mapToolCalls`,
  `mapToolResults`, `boundedInt`, `findTool`),
* tool parameter reflection and schema composition
  (`internal/util/toolparams.go`, `internal/core/types.go`),
* the retry engine (`internal/providers/retry`),
* the per-provider message encoders
  (`internal/providers/openai/client.go` `mapChatMessages`,
  the gemini client's `mapMessages` and payload construction).

Go strings and `[]byte`/`json.RawMessage` values are modelled as `List Char`
or `String` as convenient; machine `int`/`time.Duration` as `Int`;
`float64` as `ℚ` (exact arithmetic; the retry delays in the source stay far
below 2^53, where Go's float64 arithmetic on them is exact, and no claim
depends on float rounding).  Go `any` values that cross the JSON boundary
are modelled by `GoVal`: either a JSON value, or an opaque value that
`json.Marshal` rejects (channels, functions, ...).  `encoding/json` itself
is external to the repository; `parseJson`/`renderJson` below model its
observable behaviour (whitespace-insensitive parsing, failure on trailing
garbage).
-/

/-- A JSON value, as produced by `encoding/json` when decoding into `any`.
Numbers are modelled exactly as rationals. -/
inductive Json where
  | null : Json
  | bool (b : Bool) : Json
  | num (q : ℚ) : Json
  | str (s : String) : Json
  | arr (xs : List Json) : Json
  | obj (fields : List (String × Json)) : Json

/-- A Go `any` value on the tool boundary: either a JSON-serialisable value
(modelled by its JSON image) or a value `json.Marshal` rejects, tagged with
the marshal error's text. -/
inductive GoVal where
  | json (j : Json) : GoVal
  | unserializable (reason : String) : GoVal

/-- Whitespace as recognised by Go's JSON scanner and (for the inputs that
matter here) `strings.TrimSpace`: space, tab, newline, carriage return. -/
def isWsChar (c : Char) : Bool :=
  c == '\t' || c == '\n' || c == '\r' || c == ' '

/-- Drop leading whitespace (the scanning part of `strings.TrimSpace`). -/
def trimLeftL (l : List Char) : List Char := l.dropWhile isWsChar

/-- Drop trailing whitespace, by recursion on the list. -/
def trimRightL : List Char → List Char
  | [] => []
  | c :: t =>
    match trimRightL t with
    | [] => if isWsChar c then [] else [c]
    | t' => c :: t'

/-- `strings.TrimSpace`. -/
def trimL (l : List Char) : List Char := trimRightL (trimLeftL l)

/-- `strings.HasPrefix s pre` (argument order: subject, prefix). -/
def hasPrefixL : List Char → List Char → Bool
  | _, [] => true
  | [], _ :: _ => false
  | c :: cs, p :: ps => p == c && hasPrefixL cs ps

/-- `strings.HasSuffix s suf`. -/
def hasSuffixL (s suf : List Char) : Bool := hasPrefixL s.reverse suf.reverse

/-- `strings.TrimPrefix`. -/
def trimPrefixL (s pre : List Char) : List Char :=
  if hasPrefixL s pre then s.drop pre.length else s

/-- `strings.TrimSuffix`. -/
def trimSuffixL (s suf : List Char) : List Char :=
  if hasSuffixL s suf then s.take (s.length - suf.length) else s

/-- `strings.IndexByte` (`none` models Go's `-1`). -/
def findIdxL (p : Char → Bool) : List Char → Option Nat
  | [] => none
  | c :: t => if p c then some 0 else (findIdxL p t).map (· + 1)

/-- `strings.LastIndexByte` (`none` models Go's `-1`). -/
def lastIdxL (p : Char → Bool) (l : List Char) : Option Nat :=
  (findIdxL p l.reverse).map (fun i => l.length - 1 - i)

/-- The three-backtick code fence delimiter. -/
def fenceL : List Char := ['`', '`', '`']

/-- `RepairJSON` from `internal/util/jsonrepair.go`, translated clause by
clause.  Returns the possibly repaired text and `true` iff it differs from
the input.  Go's `-1` index sentinel becomes `Option Nat`. -/
def RepairJSON (l : List Char) : List Char × Bool :=
  let original := l
  let s := trimL l
  -- Strip ```json ... ``` or ``` ... ``` fences
  let s :=
    if hasPrefixL s fenceL && hasSuffixL s fenceL then
      let s := trimPrefixL s fenceL
      let s := trimSuffixL s fenceL
      let s := trimL s
      if hasPrefixL (s.map Char.toLower) ['j', 's', 'o', 'n'] then
        trimL (s.drop 4)
      else s
    else s
  -- Try to trim to first '{' or '[' and matching closing '}' or ']'
  let idxObj := findIdxL (· == '{') s
  let idxArr := findIdxL (· == '[') s
  let start : Option Nat :=
    match idxObj, idxArr with
    | some io, some ia => if io < ia then some io else some ia
    | some io, none => some io
    | none, some ia => some ia
    | none, none => none
  let s :=
    match start with
    | none => s
    | some st =>
      let s := s.drop st
      -- take up to the last '}' or ']'
      let lastObj := lastIdxL (· == '}') s
      let lastArr := lastIdxL (· == ']') s
      let e : Option Nat :=
        match lastObj, lastArr with
        | some lo, some la => if lo > la then some (lo + 1) else some (la + 1)
        | some lo, none => some (lo + 1)
        | none, some la => some (la + 1)
        | none, none => none
      match e with
      | none => s
      | some en => if 0 < en && en ≤ s.length then s.take en else s
  (s, decide (s ≠ original))

/-- Leading-whitespace skipping inside the JSON scanner. -/
def skipWsL (l : List Char) : List Char := l.dropWhile isWsChar

/-- Value of a digit run. -/
def digitsToNat (l : List Char) : Nat :=
  l.foldl (fun n c => 10 * n + (c.toNat - '0'.toNat)) 0

/-- Escape table of JSON string literals. -/
def escCharTable (c : Char) : Option Char :=
  if c == '"' then some '"'
  else if c == 'b' then some (Char.ofNat 8)
  else if c == 'n' then some '\n'
  else if c == '\\' then some '\\'
  else if c == 'f' then some (Char.ofNat 12)
  else if c == 't' then some '\t'
  else if c == '/' then some '/'
  else if c == 'r' then some '\r'
  else none

/-- Hex digit value. -/
def hexDigitVal (c : Char) : Option Nat :=
  if 'A' ≤ c ∧ c ≤ 'F' then some (10 + (c.toNat - 'A'.toNat))
  else if 'a' ≤ c ∧ c ≤ 'f' then some (10 + (c.toNat - 'a'.toNat))
  else if '0' ≤ c ∧ c ≤ '9' then some (c.toNat - '0'.toNat)
  else none

/-- Parse the body of a JSON string literal (after the opening quote),
returning the decoded characters and the input after the closing quote. -/
def parseStrBody : List Char → Option (List Char × List Char)
  | [] => none
  | '"' :: rest => some ([], rest)
  | '\\' :: 'u' :: a :: b :: c :: d :: rest =>
    match hexDigitVal a, hexDigitVal b, hexDigitVal c, hexDigitVal d with
    | some ha, some hb, some hc, some hd =>
      (parseStrBody rest).map fun (s, r) =>
        (Char.ofNat (((ha * 16 + hb) * 16 + hc) * 16 + hd) :: s, r)
    | _, _, _, _ => none
  | '\\' :: e :: rest =>
    match escCharTable e with
    | some c => (parseStrBody rest).map fun (s, r) => (c :: s, r)
    | none => none
  | c :: rest => (parseStrBody rest).map fun (s, r) => (c :: s, r)

/-- Parse the exponent suffix of a JSON number. -/
def parseExpPart (q : ℚ) (l : List Char) : Option (ℚ × List Char) :=
  let eneg : Bool := match l with | '-' :: _ => true | _ => false
  let l1 : List Char :=
    match l with
    | '+' :: t => t
    | '-' :: t => t
    | _ => l
  let (es, r) := l1.span Char.isDigit
  if es.isEmpty then none
  else
    some (q * (10 : ℚ) ^ (if eneg then -(digitsToNat es : ℤ) else (digitsToNat es : ℤ)), r)

/-- Parse a non-negative JSON number. -/
def parsePosNumber (l : List Char) : Option (ℚ × List Char) :=
  let (ds, r1) := l.span Char.isDigit
  if ds.isEmpty then none
  else
    let base : ℚ := (digitsToNat ds : ℚ)
    let withFrac : Option (ℚ × List Char) :=
      match r1 with
      | '.' :: t =>
        let (fs, r) := t.span Char.isDigit
        if fs.isEmpty then none
        else some (base + (digitsToNat fs : ℚ) / ((10 : ℚ) ^ fs.length), r)
      | _ => some (base, r1)
    match withFrac with
    | none => none
    | some (q, r2) =>
      match r2 with
      | 'e' :: t => parseExpPart q t
      | 'E' :: t => parseExpPart q t
      | _ => some (q, r2)

/-- Parse a JSON number, sign included. -/
def parseNumber (l : List Char) : Option (ℚ × List Char) :=
  match l with
  | '-' :: t => (parsePosNumber t).map fun (q, r) => (-q, r)
  | _ => parsePosNumber l

mutual

/-- Fuel-bounded recursive-descent parser for one JSON value; models the
scanner of `encoding/json`.  The caller must have skipped leading
whitespace. -/
def parseValue : Nat → List Char → Option (Json × List Char)
  | 0, _ => none
  | fuel + 1, l =>
    match l with
    | [] => none
    | '"' :: t => (parseStrBody t).map fun (s, r) => (Json.str (String.mk s), r)
    | '{' :: t =>
      match skipWsL t with
      | '}' :: r => some (Json.obj [], r)
      | t' => (parseMembers fuel t').map fun (ms, r) => (Json.obj ms, r)
    | '[' :: t =>
      match skipWsL t with
      | ']' :: r => some (Json.arr [], r)
      | t' => (parseElements fuel t').map fun (xs, r) => (Json.arr xs, r)
    | 't' :: 'r' :: 'u' :: 'e' :: r => some (Json.bool true, r)
    | 'f' :: 'a' :: 'l' :: 's' :: 'e' :: r => some (Json.bool false, r)
    | 'n' :: 'u' :: 'l' :: 'l' :: r => some (Json.null, r)
    | c :: _ =>
      if c == '-' || c.isDigit then (parseNumber l).map fun (q, r) => (Json.num q, r)
      else none

/-- Parse one or more `"key": value` members and the closing brace. -/
def parseMembers : Nat → List Char → Option (List (String × Json) × List Char)
  | 0, _ => none
  | fuel + 1, l =>
    match l with
    | '"' :: t =>
      match parseStrBody t with
      | none => none
      | some (k, r1) =>
        match skipWsL r1 with
        | ':' :: r2 =>
          match parseValue fuel (skipWsL r2) with
          | none => none
          | some (v, r3) =>
            match skipWsL r3 with
            | ',' :: r4 =>
              (parseMembers fuel (skipWsL r4)).map fun (ms, r) => ((String.mk k, v) :: ms, r)
            | '}' :: r4 => some ([(String.mk k, v)], r4)
            | _ => none
        | _ => none
    | _ => none

/-- Parse one or more array elements and the closing bracket. -/
def parseElements : Nat → List Char → Option (List Json × List Char)
  | 0, _ => none
  | fuel + 1, l =>
    match parseValue fuel l with
    | none => none
    | some (v, r1) =>
      match skipWsL r1 with
      | ',' :: r2 => (parseElements fuel (skipWsL r2)).map fun (xs, r) => (v :: xs, r)
      | ']' :: r2 => some ([v], r2)
      | _ => none

end

/-- `json.Unmarshal` of a whole text into `any`: whitespace-insensitive at
the edges, failing on trailing garbage. -/
def parseJson (l : List Char) : Option Json :=
  let m := trimL l
  match parseValue (2 * m.length + 2) m with
  | some (v, rest) => if (skipWsL rest).isEmpty then some v else none
  | none => none

/-- Escape a character for JSON output (quotes and backslashes; the full
control-character table of `encoding/json` is not load-bearing here). -/
def escapeJsonChars : List Char → List Char
  | [] => []
  | c :: t =>
    if c == '"' || c == '\\' then '\\' :: c :: escapeJsonChars t
    else c :: escapeJsonChars t

mutual

/-- `json.Marshal` of a JSON value (Go sorts object keys; the embedding
keeps insertion order, which no claim depends on).  Fractional numbers are
rendered in a placeholder form that no claim exercises. -/
def renderJson : Json → List Char
  | .null => "null".toList
  | .bool b => (if b then "true" else "false").toList
  | .num q =>
    if q.den = 1 then (toString q.num).toList
    else (toString q.num).toList ++ '/' :: (toString q.den).toList
  | .str s => '"' :: escapeJsonChars s.toList ++ ['"']
  | .arr xs => '[' :: renderElems xs ++ [']']
  | .obj ms => '{' :: renderMembers ms ++ ['}']

/-- Comma-separated rendering of array elements. -/
def renderElems : List Json → List Char
  | [] => []
  | [x] => renderJson x
  | x :: xs => renderJson x ++ ',' :: renderElems xs

/-- Comma-separated rendering of object members. -/
def renderMembers : List (String × Json) → List Char
  | [] => []
  | [(k, v)] => '"' :: escapeJsonChars k.toList ++ '"' :: ':' :: renderJson v
  | (k, v) :: ms => ('"' :: escapeJsonChars k.toList ++ '"' :: ':' :: renderJson v) ++ ',' :: renderMembers ms

end

/-- `json.Marshal` on a Go `any` value: succeeds exactly on serialisable
values. -/
def marshalGoVal : GoVal → Option (List Char)
  | .json j => some (renderJson j)
  | .unserializable _ => none

/-- The sentinel errors of `errors/errors.go`, plus the non-sentinel error
shapes the embedded code paths produce. -/
inductive GoError where
  | noMatchingModel
  | unknownTool
  | maxToolTurns
  | structuredOutput
  | unknownProvider
  | marshalToolCallArgs (tool : String)
  | geminiMarshalPayload
  | httpStatus (status : Int) (body source : String)
  | netError (timeout : Bool)
  | toolFailure (msg : String)
  | decodeFailure : String → GoError
  | callFailure (msg : String)
deriving DecidableEq

/-- `config.ModelConfig` (`internal/config/loader.go`). -/
structure ModelConfig where
  provider : String
  model : String
  apiKey : String
  webVariant : String
  supportsWebSearch : Bool
  supportsTools : Bool
  supportsStructuredOutput : Bool
  contextWindow : Int
  maxOutputTokens : Int
deriving DecidableEq, Inhabited

/-- The model registry `map[string]config.ModelConfig`, modelled as an
association list. -/
abbrev Registry := List (String × ModelConfig)

/-- Go map lookup `r.models[key]` (first binding wins). -/
def lookupModel (models : Registry) (k : String) : Option ModelConfig :=
  (models.find? (fun p => p.1 == k)).map Prod.snd

/-- The sorted key list the auto-selection path builds with `sort.Strings`
(`router.go:315-319`); `insertionSort` under the total order `≤` on
`String` produces the same (unique) sorted permutation. -/
def sortedKeys (models : Registry) : List String :=
  (models.map Prod.fst).insertionSort (· ≤ ·)

/-- The kind of a Go field type, as `reflect` reports it to
`generateSchemaForType` (`internal/util/toolparams.go`). -/
inductive GoType where
  | ptr (elem : GoType)
  | string
  | int
  | uint
  | float
  | bool
  | array (elem : GoType)
  | mapString
  | mapOther
  | struct
  | interface
  | other
deriving DecidableEq

/-- Whether a declared field type is pointer-kind. -/
def isPtrType : GoType → Bool
  | .ptr _ => true
  | _ => false

/-- The switch statement of `generateSchemaForType`
(`internal/util/toolparams.go:95-129`).  The `items` arm of the
array/slice case inlines `generateSchemaForType`'s pointer dispatch (to
keep the recursion structural); a doubly-indirect pointer falls into the
switch's default arm, as in the source. -/
def schemaKindEntries : GoType → List (String × Json)
  | .string => [("type", Json.str "string")]
  | .int => [("type", Json.str "integer")]
  | .uint => [("type", Json.str "integer"), ("minimum", Json.num 0)]
  | .float => [("type", Json.str "number")]
  | .bool => [("type", Json.str "boolean")]
  | .array e =>
    ("type", Json.str "array") ::
      (match e with
       | .interface => []
       | .ptr e2 => [("items", Json.obj (("nullable", Json.bool true) :: schemaKindEntries e2))]
       | e2 => [("items", Json.obj (schemaKindEntries e2))])
  | .mapString => [("type", Json.str "object"), ("additionalProperties", Json.bool true)]
  | .mapOther => [("type", Json.str "object")]
  | .struct => [("type", Json.str "object"), ("additionalProperties", Json.bool true)]
  | .interface => [("type", Json.str "object"), ("additionalProperties", Json.bool true)]
  | .ptr _ => [("type", Json.str "string")]
  | .other => [("type", Json.str "string")]

/-- `generateSchemaForType` (`internal/util/toolparams.go:86-132`): one
level of pointer indirection adds `nullable:true`, then the switch on the
(dereferenced) kind decides the fragment. -/
def generateSchemaForType : GoType → Json
  | .ptr e => Json.obj (("nullable", Json.bool true) :: schemaKindEntries e)
  | e => Json.obj (schemaKindEntries e)

/-- One reflected struct field, with the tags `GenerateToolParameters`
reads (`reflect.StructTag.Get` yields `""` for an absent tag). -/
structure FieldDesc where
  name : String
  jsonTag : String
  requiredTag : String
  descriptionTag : String
  typ : GoType
  exported : Bool

/-- One element of the `[]map[string]any` that `GenerateToolParameters`
returns (the four keys it always populates). -/
structure ToolParamMap where
  name : String
  required : Bool
  description : String
  schema : Json

/-- `strings.Split(tag, ",")`, as a structural recursion (so that
concrete instances reduce in the kernel). -/
def splitCommaAux : List Char → List Char → List String
  | [], acc => [String.mk acc.reverse]
  | c :: t, acc =>
    if c = ',' then String.mk acc.reverse :: splitCommaAux t []
    else splitCommaAux t (c :: acc)

/-- Split a tag on commas. -/
def splitComma (s : String) : List String := splitCommaAux s.toList []

/-- `GenerateToolParameters` (`internal/util/toolparams.go:10-83`) on the
reflected field list of the parameter record.  The function's error result
is always `nil` in the source, so the embedding is total. -/
def GenerateToolParameters : List FieldDesc → List ToolParamMap
  | [] => []
  | f :: rest =>
    if f.exported = false then GenerateToolParameters rest
    else
      let name :=
        if f.jsonTag ≠ "" then
          let h := (splitComma f.jsonTag).headD ""
          if h ≠ "" then h else f.name
        else f.name
      if f.jsonTag = "-" then GenerateToolParameters rest
      else
        let required :=
          if f.requiredTag = "false" then false
          else if f.requiredTag = "true" then true
          else !(isPtrType f.typ)
        { name := name, required := required, description := f.descriptionTag,
          schema := generateSchemaForType f.typ } :: GenerateToolParameters rest

/-- `core.ToolParameter` (`internal/core/types.go:31-36`); `Schema` is a
nilable map. -/
structure ToolParameter where
  name : String
  required : Bool
  description : String
  schema : Option Json

/-- The conversion `executeInternal` performs from the parameter maps to
`core.ToolParameter` (`router.go:96-109`); the type assertions always
succeed on `GenerateToolParameters` output. -/
def toolParamOfMap (p : ToolParamMap) : ToolParameter :=
  { name := p.name, required := p.required, description := p.description, schema := some p.schema }

/-- `core.ToolDef`. -/
structure ToolDef where
  name : String
  description : String
  parameters : List ToolParameter

/-- Go map assignment `m[k] = v` on the string-keyed object under
construction (position of an overwritten key is immaterial: Go maps are
unordered and marshalled with sorted keys). -/
def mapInsert (m : List (String × Json)) (k : String) (v : Json) : List (String × Json) :=
  if m.any (fun p => p.1 == k) then m.map (fun p => if p.1 == k then (k, v) else p)
  else m ++ [(k, v)]

/-- `core.GenerateJSONSchemaFromToolDef` (`internal/core/types.go:67-92`),
up to the final `json.Marshal` of the schema map (which always succeeds on
this shape): builds `{type:"object", properties:{...}}` plus `required`
when non-empty. -/
def GenerateJSONSchemaFromToolDef (td : ToolDef) : Json :=
  let pr := td.parameters.foldl
    (fun (acc : List (String × Json) × List String) p =>
      let schema := p.schema.getD (Json.obj [("type", Json.str "string")])
      (mapInsert acc.1 p.name schema, if p.required then acc.2 ++ [p.name] else acc.2))
    ([], [])
  Json.obj (("type", Json.str "object") :: ("properties", Json.obj pr.1) ::
    (if pr.2.isEmpty then [] else [("required", Json.arr (pr.2.map Json.str))]))

/-- The public `ToolCall` record (spec §3); `Args` is a decoded JSON value
or Go `nil`. -/
structure PToolCall where
  callID : String
  name : String
  args : Option GoVal

/-- The public `ToolResult` record (spec §3). -/
structure PToolResult where
  callID : String
  name : String
  result : GoVal

/-- The public `Message`.  Modelled from the spec: §3 declares the
optional `ToolCalls`/`ToolResults` sequences that `router.go` sets; the
`api.go` revision in the source snapshot predates those two fields, whose
shape is fixed by `router.go`'s uses. -/
structure Message where
  role : String
  content : String
  images : List String
  toolCalls : List PToolCall
  toolResults : List PToolResult

/-- A `Tool` implementation (the `Tool` interface of `api.go`):
`paramFields` is the reflected field list of the record that
`Parameters()` returns; `decodeArgs` is `json.Unmarshal` of the call's raw
arguments into a fresh record; `exec` is `Execute`. -/
structure Tool where
  name : String
  description : String
  paramFields : List FieldDesc
  decodeArgs : List Char → Except GoError GoVal
  exec : GoVal → Except GoError GoVal

/-- The caller's `Request` (`api.go`). -/
structure Request where
  model : String
  messages : List Message
  allowWebSearch : Bool
  tools : List Tool
  maxTokens : Int
  temperature : ℚ
  topP : ℚ
  timeout : Int

/-- `core.ToolCall`: the raw argument bytes (`json.RawMessage`; `[]` for
nil). -/
structure ToolCallC where
  callID : String
  name : String
  args : List Char

/-- `core.ToolResult`. -/
structure ToolResultC where
  callID : String
  name : String
  result : GoVal

/-- `core.Message`.  Modelled from the spec: §3/§4.3 give the adapter-side
message its `ToolCalls`/`ToolResults` sequences; the `internal/core`
revision in the snapshot predates them, and their shape is fixed by the
router's `mapMessages` and both adapters' encoders. -/
structure MessageC where
  role : String
  content : String
  images : List String
  toolCalls : List ToolCallC
  toolResults : List ToolResultC

/-- `core.Usage`. -/
structure Usage where
  promptTokens : Int
  completionTokens : Int
  totalTokens : Int

/-- `core.RawResponse`. -/
structure RawResponse where
  content : String
  toolCalls : List ToolCallC
  usage : Usage

/-- `core.CallParams`. -/
structure CallParams where
  model : String
  messages : List MessageC
  toolDefs : List ToolDef
  outputSchema : String
  maxTokens : Int
  temperature : ℚ
  topP : ℚ

/-- The auto-selection scan of `selectModel` (`router.go:321-330`): first
key in the (sorted) list whose model passes the capability checks.  The
`none` lookup arm is unreachable because the keys are drawn from the
registry itself. -/
def autoScan (models : Registry) (req : Request) : List String → Except GoError (ModelConfig × String)
  | [] => .error .noMatchingModel
  | key :: rest =>
    match lookupModel models key with
    | none => autoScan models req rest
    | some mc =>
      if req.allowWebSearch ∧ mc.supportsWebSearch = false then autoScan models req rest
      else if req.tools.length > 0 ∧ mc.supportsTools = false then autoScan models req rest
      else .ok (mc, key)

/-- `selectModel` (`router.go:282-332`). -/
def selectModel (models : Registry) (req : Request) : Except GoError (ModelConfig × String) :=
  if req.model ≠ "" then
    match lookupModel models req.model with
    | none => .error .noMatchingModel
    | some mc =>
      if req.allowWebSearch ∧ mc.provider = "openai" then
        if mc.webVariant ≠ "" then
          match lookupModel models mc.webVariant with
          | some webModel => .ok (webModel, mc.webVariant)
          | none => .error .noMatchingModel
        else
          let fallbackKey := req.model ++ "-web"
          match lookupModel models fallbackKey with
          | some webModel => .ok (webModel, fallbackKey)
          | none => .error .noMatchingModel
      else if req.tools.length > 0 ∧ mc.supportsTools = false then .error .noMatchingModel
      else if req.allowWebSearch ∧ mc.supportsWebSearch = false then .error .noMatchingModel
      else .ok (mc, req.model)
  else
    autoScan models req (sortedKeys models)

/-- `boundedInt` (`router.go:345-356`). -/
def boundedInt (req maxv : Int) : Int :=
  if maxv ≤ 0 then req
  else if req ≤ 0 then maxv
  else if req > maxv then maxv
  else req

/-- `findTool` (`router.go:336-343`). -/
def findTool (tools : List Tool) (name : String) : Option Tool :=
  match tools with
  | [] => none
  | t :: rest => if t.name = name then some t else findTool rest name

/-- `mapToolCalls` (`router.go:376-394`): marshal each call's decoded
arguments back to raw bytes; a marshal failure aborts with a wrapped
error. -/
def mapToolCalls : List PToolCall → Except GoError (List ToolCallC)
  | [] => .ok []
  | tc :: rest =>
    let raw : Except GoError (List Char) :=
      match tc.args with
      | none => .ok []
      | some v =>
        match marshalGoVal v with
        | some b => .ok b
        | none => .error (.marshalToolCallArgs tc.name)
    match raw with
    | .error e => .error e
    | .ok rawBytes => (mapToolCalls rest).map (fun out => ⟨tc.callID, tc.name, rawBytes⟩ :: out)

/-- `mapToolResults` (`router.go:396-405`). -/
def mapToolResults (l : List PToolResult) : List ToolResultC :=
  l.map (fun tr => ⟨tr.callID, tr.name, tr.result⟩)

/-- `mapMessages` (`router.go:358-374`). -/
def mapMessages : List Message → Except GoError (List MessageC)
  | [] => .ok []
  | m :: rest =>
    match mapToolCalls m.toolCalls with
    | .error e => .error e
    | .ok tcs =>
      (mapMessages rest).map
        (fun out => ⟨m.role, m.content, m.images, tcs, mapToolResults m.toolResults⟩ :: out)

/-- The router's configuration state (`router.go:28-35`; the adapter
cache, logger and transport are unmodelled runtime resources). -/
structure RouterCfg where
  models : Registry
  maxToolTurns : Int

/-- `NewRouter` (`router.go:59-71`): defaults, then functional options. -/
def NewRouter (models : Registry) (opts : List (RouterCfg → RouterCfg)) : RouterCfg :=
  opts.foldl (fun r o => o r) { models := models, maxToolTurns := 5 }

/-- `WithMaxToolTurns` (`router.go:47`). -/
def WithMaxToolTurns (n : Int) : RouterCfg → RouterCfg :=
  fun r => { r with maxToolTurns := n }

/-- `getClient`/`NewProviderClient` succeed exactly on the two registered
provider tags (`internal/providers`, factory). -/
def providerKnown (p : String) : Bool :=
  p == "openai" || p == "gemini"

/-- The sequential tool-execution block of one turn
(`router.go:201-232`): unknown tool, argument decode failure or tool
failure aborts; otherwise the `{call_id, name, result}` items are
collected in order. -/
def runTools (tools : List Tool) : List ToolCallC → Except GoError (List PToolResult)
  | [] => .ok []
  | tc :: rest =>
    match findTool tools tc.name with
    | none => .error .unknownTool
    | some t =>
      match t.decodeArgs tc.args with
      | .ok argStruct =>
        match t.exec argStruct with
        | .ok output => (runTools tools rest).map (fun rs => ⟨tc.callID, tc.name, output⟩ :: rs)
        | .error e => .error e
      | .error e => .error e

/-- The assistant message that echoes the model's tool calls back into the
conversation (`router.go:186-199`): arguments are `json.Unmarshal`led into
`any`, staying `nil` when empty or undecodable. -/
def toolCallsMessage (tcs : List ToolCallC) : Message :=
  { role := "assistant", content := "", images := [],
    toolCalls := tcs.map (fun tc =>
      ⟨tc.callID, tc.name, if tc.args.length > 0 then (parseJson tc.args).map GoVal.json else none⟩),
    toolResults := [] }

/-- The assistant message bearing the collected tool results
(`router.go:234-251`). -/
def toolResultsMessage (rs : List PToolResult) : Message :=
  { role := "assistant", content := "", images := [], toolCalls := [], toolResults := rs }

/-- One turn loop of `executeInternal` (`router.go:131-257`), on the
remaining turn count.  `rc` is the adapter oracle, indexed by the number
of calls already issued; the returned list records every `CallParams`
passed to `rc.Call`, in order. -/
def execLoop (rc : Nat → Except GoError RawResponse) (req : Request) (mc : ModelConfig)
    (defs : List ToolDef) (schema : String) :
    Nat → Nat → List Message → List CallParams → (String × Option GoError) × List CallParams
  | 0, _, _, trace => (("", some .maxToolTurns), trace.reverse)
  | n + 1, callIdx, conv, trace =>
    match mapMessages conv with
    | .error e => (("", some e), trace.reverse)
    | .ok messages =>
      let params : CallParams :=
        { model := mc.model, messages := messages, toolDefs := defs, outputSchema := schema,
          maxTokens := boundedInt req.maxTokens mc.maxOutputTokens,
          temperature := req.temperature, topP := req.topP }
      let trace := params :: trace
      match rc callIdx with
      | .error e => (("", some e), trace.reverse)
      | .ok resp =>
        if resp.toolCalls.isEmpty then ((resp.content, none), trace.reverse)
        else
          let conv := conv ++ [toolCallsMessage resp.toolCalls]
          match runTools req.tools resp.toolCalls with
          | .error e => (("", some e), trace.reverse)
          | .ok results =>
            let conv := if results.isEmpty then conv else conv ++ [toolResultsMessage results]
            execLoop rc req mc defs schema n (callIdx + 1) conv trace

/-- `executeInternal` (`router.go:75-259`).  `sanitizeResponseSchema`
stands for `util.SanitizeResponseSchemaJSON` (`internal/util/jsonschema.go`),
whose output no claim inspects; the HTTP client cache is collapsed into
the `providerKnown` factory check.  Returns the Go `(string, error)` pair
and the trace of adapter call parameters. -/
def executeInternal (r : RouterCfg) (rc : Nat → Except GoError RawResponse)
    (sanitizeResponseSchema : String → String)
    (req : Request) (outputSchema : String) (requireStructured : Bool) :
    (String × Option GoError) × List CallParams :=
  match selectModel r.models req with
  | .error e => (("", some e), [])
  | .ok (mc, _modelKey) =>
    if providerKnown mc.provider = false then (("", some .unknownProvider), [])
    else
      let defs := req.tools.map (fun t =>
        { name := t.name, description := t.description,
          parameters := (GenerateToolParameters t.paramFields).map toolParamOfMap : ToolDef })
      let schema :=
        if requireStructured = false ∨ mc.supportsStructuredOutput = false then ""
        else if outputSchema ≠ "" then sanitizeResponseSchema outputSchema
        else outputSchema
      let maxTurns := if r.maxToolTurns ≤ 0 then 3 else r.maxToolTurns
      execLoop rc req mc defs schema maxTurns.toNat 0 req.messages []

/-- `ExecuteRaw` (`router.go:262-264`). -/
def ExecuteRaw (r : RouterCfg) (rc : Nat → Except GoError RawResponse)
    (sanitizeResponseSchema : String → String) (req : Request) :
    (String × Option GoError) × List CallParams :=
  executeInternal r rc sanitizeResponseSchema req "" false

/-- The outcome of `Execute[T]`: the raw string (when `T` is the string
type) or a decoded `T`. -/
inductive StrOrVal (T : Type) where
  | fromStr (s : String)
  | val (t : T)

/-- The type-directed pieces of `Execute[T]`: `util.IsStringType[T]` and
`json.Unmarshal` into `T`. -/
structure Decoder (T : Type) where
  isStringType : Bool
  unmarshal : List Char → Option T

/-- The decode tail of `Execute[T]` (`api.go:43-56` and the identical
`api.go:63-76`): raw text for string types; otherwise parse, on failure
repair (when the repair modified the text) and re-parse once, and fail
`StructuredOutput` when that also fails. -/
def executeDecode {T : Type} (d : Decoder T) (s : String) : Except GoError (StrOrVal T) :=
  if d.isStringType then .ok (.fromStr s)
  else
    match d.unmarshal s.toList with
    | some out => .ok (.val out)
    | none =>
      let rep := RepairJSON s.toList
      if rep.2 then
        match d.unmarshal rep.1 with
        | some out => .ok (.val out)
        | none => .error .structuredOutput
      else .error .structuredOutput

/-- `Execute[T]` (`api.go:29-77`): client errors pass through unchanged;
a final string is decoded by `executeDecode`.  (The schema-capable and
plain client branches run the same decode tail.) -/
def ExecuteTyped {T : Type} (d : Decoder T) (clientResult : Except GoError String) :
    Except GoError (StrOrVal T) :=
  match clientResult with
  | .error e => .error e
  | .ok s => executeDecode d s

namespace Retry

/-- `retry.Config` (durations in nanoseconds; `JitterRatio` is a float64,
modelled exactly). -/
structure Config where
  maxAttempts : Int
  baseDelay : Int
  maxDelay : Int
  jitterRatio : ℚ

/-- `retry.DefaultConfig`: `{5, 200ms, 3s, 0.25}`. -/
def DefaultConfig : Config :=
  { maxAttempts := 5, baseDelay := 200000000, maxDelay := 3000000000, jitterRatio := 1 / 4 }

/-- `retry.IsTransient`: HTTP 429/5xx status errors and network timeouts
(the `errors.As` chain inspection becomes a constructor match). -/
def IsTransient : GoError → Bool
  | .httpStatus status _ _ => status == 429 || decide (500 ≤ status)
  | .netError timeout => timeout
  | _ => false

/-- The capped exponential delay before the retry following the `k`-th
failed call (0-based): `min(BaseDelay·2^k, MaxDelay)`
(`retry.go`, `delay := ...`; exact for the magnitudes involved). -/
def delayAt (cfg : Config) (k : Nat) : Int :=
  min (cfg.baseDelay * 2 ^ k) cfg.maxDelay

/-- The jitter drawn for that retry: `Duration(rand.Float64() * JitterRatio
* float64(delay))`; Go's float-to-Duration conversion truncates, i.e.
floors the (non-negative) product. -/
def jitterAt (cfg : Config) (rand : Nat → ℚ) (k : Nat) : Int :=
  ⌊rand k * cfg.jitterRatio * (delayAt cfg k : ℚ)⌋

/-- The observable outcome of `WithRetryConfig`: the returned error (Go
`nil` = `none`), the number of thunk invocations, and the waits performed
(delay + jitter, in order). -/
structure RetryTrace where
  result : Option GoError
  calls : Nat
  waits : List Int
deriving DecidableEq

/-- The retry loop (`retry.go`, `WithRetryConfig`): `fn k` is the `k`-th
invocation's error result, `rand k` the `k`-th `rand.Float64()` draw.
The fuel argument only bounds the recursion; `WithRetryConfig` passes
enough for the `attempt >= MaxAttempts` exit to fire first.  The
cancellation token is modelled as never firing (its select arm is the one
behaviour outside this embedding). -/
def retryLoop (fn : Nat → Option GoError) (rand : Nat → ℚ) (cfg : Config) :
    Nat → Nat → RetryTrace
  | k, fuel =>
    match fn k with
    | none => ⟨none, k + 1, []⟩
    | some e =>
      if IsTransient e = false then ⟨some e, k + 1, []⟩
      else if cfg.maxAttempts ≤ (k + 1 : Int) then ⟨some e, k + 1, []⟩
      else
        match fuel with
        | 0 => ⟨some e, k + 1, []⟩
        | fuel' + 1 =>
          let wait := delayAt cfg k + jitterAt cfg rand k
          let rest := retryLoop fn rand cfg (k + 1) fuel'
          ⟨rest.result, rest.calls, wait :: rest.waits⟩

/-- `retry.WithRetryConfig`. -/
def WithRetryConfig (fn : Nat → Option GoError) (rand : Nat → ℚ) (cfg : Config) : RetryTrace :=
  retryLoop fn rand cfg 0 cfg.maxAttempts.toNat

/-- `retry.WithRetry`. -/
def WithRetry (fn : Nat → Option GoError) (rand : Nat → ℚ) : RetryTrace :=
  WithRetryConfig fn rand DefaultConfig

end Retry

/-- Go map indexing on a decoded JSON object (`obj["key"]`). -/
def jlookup (m : List (String × Json)) (k : String) : Option Json :=
  (m.find? (fun p => p.1 == k)).map Prod.snd

/-- `json.Unmarshal` of a decoded value into `[]map[string]any`: succeeds
exactly when the value is an array of objects. -/
def allObjs : List Json → Option (List (List (String × Json)))
  | [] => some []
  | Json.obj m :: rest => (allObjs rest).map (m :: ·)
  | _ => none

/-- View a JSON value as an array of objects. -/
def asMapArray : Json → Option (List (List (String × Json)))
  | .arr xs => allObjs xs
  | _ => none

/-- View a JSON value as an object (`json.Unmarshal` into
`map[string]any`). -/
def asObj (j : Json) : Option (List (String × Json)) :=
  match j with
  | .obj m => some m
  | _ => none

namespace OpenAI

/-- One part of an OpenAI content-parts array. -/
inductive Part where
  | text (s : String)
  | imageUrl (url : String)
deriving DecidableEq

/-- One message of the OpenAI chat payload, as built by
`mapChatMessages`: a `tool_calls` assistant message (with empty content),
a `role:"tool"` result message whose `content` holds the serialised
result bytes, or an ordinary content-parts message. -/
inductive WireMsg where
  | toolCallsMsg (role : String) (calls : List (String × String × List Char))
  | toolResultMsg (toolCallID name : String) (content : List Char)
  | contentMsg (role : String) (parts : List Part)

/-- The `content` string sent for one tool result
(`internal/providers/openai/client.go:185-191`): the marshalled result,
or the `{"error": ...}` payload substituted when marshalling fails. -/
def toolResultContent : GoVal → List Char
  | .json j => renderJson j
  | .unserializable reason =>
    renderJson (Json.obj [("error", Json.str ("failed to marshal tool result: " ++ reason))])

/-- `mapChatMessages` (`internal/providers/openai/client.go:156-215`). -/
def mapChatMessages : List MessageC → List WireMsg
  | [] => []
  | m :: rest =>
    if m.toolCalls.isEmpty = false then
      WireMsg.toolCallsMsg m.role
        (m.toolCalls.map (fun it =>
          (it.callID, it.name, if it.args.length > 0 then it.args else ['{', '}'])))
        :: mapChatMessages rest
    else if m.toolResults.isEmpty = false then
      m.toolResults.map (fun tr => WireMsg.toolResultMsg tr.callID tr.name (toolResultContent tr.result))
        ++ mapChatMessages rest
    else
      WireMsg.contentMsg m.role
        ((if m.content ≠ "" then [Part.text m.content] else []) ++ m.images.map Part.imageUrl)
        :: mapChatMessages rest

end OpenAI

namespace Gemini

/-- One Gemini content part. -/
inductive GemPart where
  | functionCall (name : String) (args : Option Json)
  | functionResponse (name : String) (response : GoVal)
  | text (s : String)
  | fileData (fileUri : String)

/-- One entry of the Gemini `contents` array. -/
structure GemContent where
  role : String
  parts : List GemPart

/-- The valid-scan of "Path A" in the gemini `mapMessages`: assistant
content decoded as `[{tool, args}, ...]` becomes `functionCall` parts;
any malformed item invalidates the whole list. -/
def fcScan : List (List (String × Json)) → Option (List GemPart)
  | [] => some []
  | item :: rest =>
    match jlookup item "tool", jlookup item "args" with
    | some (Json.str name), some (Json.obj args) =>
      (fcScan rest).map (GemPart.functionCall name (some (Json.obj args)) :: ·)
    | _, _ => none

/-- The `response` value taken from a decoded tool-result object (`nil`
decodes and marshals as JSON null). -/
def respOf (o : List (String × Json)) : GoVal :=
  GoVal.json ((jlookup o "result").getD Json.null)

/-- The array branch of "Path B": items carrying a string `tool` become
`functionResponse` parts, others are skipped; the flag records whether
any matched. -/
def frScan : List (List (String × Json)) → List GemPart × Bool
  | [] => ([], false)
  | item :: rest =>
    let pr := frScan rest
    match jlookup item "tool" with
    | some (Json.str name) => (GemPart.functionResponse name (respOf item) :: pr.1, true)
    | _ => (pr.1, pr.2)

/-- Encoding of one message by the gemini `mapMessages`
(`src/unnamed/part_008:210-357`): structured `ToolCalls`/`ToolResults`
first, then the legacy content-sniffing paths for assistant text, then
plain text/image parts, with the role fix-ups at the end. -/
def mapOneMessage (m : MessageC) : GemContent :=
  if m.toolCalls.isEmpty = false then
    let parts := m.toolCalls.map (fun it =>
      GemPart.functionCall it.name (if it.args.length > 0 then parseJson it.args else none))
    ⟨if m.role = "assistant" then "model" else m.role, parts⟩
  else if m.toolResults.isEmpty = false then
    ⟨"tool", m.toolResults.map (fun tr => GemPart.functionResponse tr.name tr.result)⟩
  else
    let pathA : Option (List GemPart) :=
      if m.content ≠ "" ∧ m.role = "assistant" then
        match ((parseJson m.content.toList).bind asMapArray).bind fcScan with
        | some (p :: ps) => some (p :: ps)
        | _ => none
      else none
    match pathA with
    | some parts => ⟨m.role, parts⟩
    | none =>
      let parts :=
        if m.content ≠ "" then
          if m.role = "assistant" then
            let pb : List GemPart × Bool :=
              match (parseJson m.content.toList).bind asObj with
              | some o =>
                match jlookup o "tool" with
                | some (Json.str toolName) => ([GemPart.functionResponse toolName (respOf o)], true)
                | _ => ([], false)
              | none =>
                match (parseJson m.content.toList).bind asMapArray with
                | some items => frScan items
                | none => ([], false)
            if pb.2 then pb.1 else [GemPart.text m.content]
          else [GemPart.text m.content]
        else []
      let parts := parts ++ m.images.map GemPart.fileData
      let role :=
        match parts.head? with
        | some (GemPart.functionResponse _ _) => "tool"
        | _ => m.role
      ⟨if role = "assistant" then "model" else role, parts⟩

/-- The gemini `mapMessages`. -/
def mapMessages (msgs : List MessageC) : List GemContent :=
  msgs.map mapOneMessage

/-- `toGeminiSchema` (`src/unnamed/part_008:394-434`), on the decoded
schema object.  The meta-key deletes in the source do not affect the
output (only `type`, `items` and `properties` are read).  The fuel
argument bounds the nesting; callers pass the term's size, which
suffices. -/
def toGeminiSchema : Nat → List (String × Json) → List (String × Json)
  | 0, _ => [("type", Json.str "OBJECT"), ("properties", Json.obj [])]
  | fuel + 1, node =>
    let t := match jlookup node "type" with | some (Json.str s) => s | _ => ""
    if t = "string" then [("type", Json.str "STRING")]
    else if t = "integer" then [("type", Json.str "INTEGER")]
    else if t = "number" then [("type", Json.str "NUMBER")]
    else if t = "boolean" then [("type", Json.str "BOOLEAN")]
    else if t = "array" then
      let items :=
        match jlookup node "items" with
        | some (Json.obj it) => toGeminiSchema fuel it
        | _ => []
      [("type", Json.str "ARRAY"), ("items", Json.obj items)]
    else if t = "object" ∨ t = "OBJECT" ∨ t = "" then
      let propsOut :=
        match jlookup node "properties" with
        | some (Json.obj props) =>
          props.filterMap (fun p =>
            match p.2 with
            | Json.obj child => some (p.1, Json.obj (toGeminiSchema fuel child))
            | _ => none)
        | _ => []
      [("type", Json.str "OBJECT"), ("properties", Json.obj propsOut)]
    else [("type", Json.str "OBJECT"), ("properties", Json.obj [])]

end Gemini

mutual

/-- A computable structural weight of a JSON value (used only to feed the
fuel of `toGeminiSchema`). -/
def jsonWeight : Json → Nat
  | .obj m => 1 + jsonMembersWeight m
  | .arr xs => 1 + jsonElemsWeight xs
  | _ => 1

/-- Weight of an object member list. -/
def jsonMembersWeight : List (String × Json) → Nat
  | [] => 0
  | p :: rest => 1 + jsonWeight p.2 + jsonMembersWeight rest

/-- Weight of an array element list. -/
def jsonElemsWeight : List Json → Nat
  | [] => 0
  | v :: rest => 1 + jsonWeight v + jsonElemsWeight rest

end

namespace Gemini

/-- `convertJSONSchemaToGemini` (`src/unnamed/part_008:386-392`): decode
the schema string, convert, or fall back to an empty OBJECT schema. -/
def convertJSONSchemaToGemini (schema : String) : Json :=
  match parseJson schema.toList with
  | some (Json.obj m) => Json.obj (toGeminiSchema (jsonMembersWeight m) m)
  | _ => Json.obj [("type", Json.str "OBJECT"), ("properties", Json.obj [])]

/-- `core.GenerateJSONSchemaFromToolDef` seen as the string the Go
function returns (its final `json.Marshal`). -/
def toolDefSchemaString (td : ToolDef) : String :=
  String.mk (renderJson (GenerateJSONSchemaFromToolDef td))

/-- The gemini `mapTools` (`src/unnamed/part_008:359-381`). -/
def mapTools (defs : List ToolDef) : List Json :=
  let fns := defs.map (fun d =>
    Json.obj [("name", Json.str d.name), ("description", Json.str d.description),
              ("parameters", convertJSONSchemaToGemini (toolDefSchemaString d))])
  if fns.isEmpty then []
  else [Json.obj [("functionDeclarations", Json.arr fns)]]

/-- The gemini `generateRequest` payload. -/
structure GenerateRequest where
  contents : List GemContent
  tools : List Json
  toolConfig : Option Json
  generationConfig : List (String × Json)
  systemInstruction : Option Json

/-- Whether a content part survives `json.Marshal` (everything is JSON by
construction except a `functionResponse` carrying an unserialisable tool
result). -/
def gemPartSerializable : GemPart → Bool
  | .functionResponse _ (GoVal.unserializable _) => false
  | _ => true

/-- Whether the whole payload survives `json.Marshal`. -/
def payloadSerializable (p : GenerateRequest) : Bool :=
  p.contents.all (fun c => c.parts.all gemPartSerializable)

/-- The payload construction of the gemini `Call`
(`src/unnamed/part_008:58-125`): system split, contents, generation
config, tool config with the ANY/AUTO mode heuristic, and structured
output only without tools. -/
def encodePayload (params : CallParams) : GenerateRequest :=
  let sysMsgs := params.messages.filter (fun m => m.role == "system")
  let nonSys := params.messages.filter (fun m => !(m.role == "system"))
  let contents := mapMessages nonSys
  let systemInstruction :=
    if sysMsgs.isEmpty then none
    else
      let parts := sysMsgs.filterMap (fun sm =>
        if sm.content ≠ "" then some (Json.obj [("text", Json.str sm.content)]) else none)
      if parts.isEmpty then none else some (Json.obj [("parts", Json.arr parts)])
  let genCfg :=
    (if params.maxTokens > 0 then [("maxOutputTokens", Json.num params.maxTokens)] else []) ++
    (if params.temperature > 0 then [("temperature", Json.num params.temperature)] else []) ++
    (if params.topP > 0 then [("topP", Json.num params.topP)] else [])
  if params.toolDefs.length > 0 then
    let mode :=
      if contents.any (fun c => c.parts.any (fun p =>
          match p with | GemPart.functionResponse _ _ => true | _ => false))
      then "AUTO" else "ANY"
    { contents := contents, tools := mapTools params.toolDefs,
      toolConfig := some (Json.obj [("functionCallingConfig", Json.obj [("mode", Json.str mode)])]),
      generationConfig := genCfg, systemInstruction := systemInstruction }
  else if params.outputSchema ≠ "" then
    { contents := contents, tools := [], toolConfig := none,
      generationConfig := genCfg ++
        [("responseMimeType", Json.str "application/json"),
         ("responseSchema", convertJSONSchemaToGemini params.outputSchema)],
      systemInstruction := systemInstruction }
  else
    { contents := contents, tools := [], toolConfig := none,
      generationConfig := genCfg, systemInstruction := systemInstruction }

/-- The encode phase of the gemini `Call`
(`src/unnamed/part_008:58-133`): build the payload and marshal it; a
marshal failure aborts the call with the wrapped error, before any HTTP
exchange (so no `{"error": ...}` substitution happens on this adapter). -/
def callEncode (params : CallParams) : Except GoError GenerateRequest :=
  let payload := encodePayload params
  if payloadSerializable payload then .ok payload
  else .error .geminiMarshalPayload

end Gemini

def mcPlain : ModelConfig :=
  { provider := "openai", model := "gpt-4o", apiKey := "k", webVariant := "",
    supportsWebSearch := false, supportsTools := true, supportsStructuredOutput := true,
    contextWindow := 0, maxOutputTokens := 0 }
def mcWebBase : ModelConfig := { mcPlain with webVariant := "gpt4o-web", supportsWebSearch := true }
def mcWeb : ModelConfig := { mcPlain with model := "gpt-4o-web", supportsWebSearch := true }
def regW : Registry := [("gpt4o", mcWebBase), ("gpt4o-web", mcWeb)]
def echoTool : Tool :=
  { name := "echo", description := "", paramFields := [],
    decodeArgs := fun _ => .ok (GoVal.json (Json.obj [])),
    exec := fun _ => .ok (GoVal.json (Json.obj [])) }
def reqW : Request :=
  { model := "gpt4o", messages := [⟨"user", "hi", [], [], []⟩], allowWebSearch := true,
    tools := [], maxTokens := 0, temperature := 0, topP := 0, timeout := 0 }
def req1 : Request :=
  { model := "gpt4o", messages := [⟨"user", "hi", [], [], []⟩], allowWebSearch := false,
    tools := [echoTool], maxTokens := 0, temperature := 0, topP := 0, timeout := 0 }
def rcAlways : Nat → Except GoError RawResponse :=
  fun _ => .ok { content := "", toolCalls := [⟨"id", "echo", ['{', '}']⟩], usage := ⟨0, 0, 0⟩ }


/-! ## String-trimming lemmas -/

theorem dropWhile_idem (p : Char → Bool) :
    ∀ l : List Char, (l.dropWhile p).dropWhile p = l.dropWhile p := by
  intro l
  induction l with
  | nil => rfl
  | cons c t ih =>
    by_cases h : p c
    · simp [List.dropWhile_cons, h, ih]
    · simp [List.dropWhile_cons, h]

theorem dropWhile_head_not (p : Char → Bool) :
    ∀ (l : List Char) (c : Char) (t : List Char), l.dropWhile p = c :: t → p c = false := by
  intro l
  induction l with
  | nil => intro c t h; simp at h
  | cons d t0 ih =>
    intro c t h
    by_cases hd : p d
    · exact ih c t (by simpa [List.dropWhile_cons, hd] using h)
    · rw [List.dropWhile_cons, if_neg (by simpa using hd)] at h
      cases h
      simpa using hd

theorem trimRightL_head_eq (c : Char) (t : List Char) (d : Char) (t' : List Char)
    (h : trimRightL (c :: t) = d :: t') : d = c := by
  cases ht : trimRightL t with
  | nil =>
    simp only [trimRightL] at h
    rw [ht] at h
    by_cases hc : isWsChar c
    · simp [hc] at h
    · simp [hc] at h
      exact h.1.symm
  | cons e t'' =>
    simp only [trimRightL] at h
    rw [ht] at h
    cases h
    rfl

theorem trimRightL_idem : ∀ l : List Char, trimRightL (trimRightL l) = trimRightL l := by
  intro l
  induction l with
  | nil => rfl
  | cons c t ih =>
    cases ht : trimRightL t with
    | nil =>
      have h1 : trimRightL (c :: t) = if isWsChar c then [] else [c] := by
        simp only [trimRightL]
        rw [ht]
      by_cases hc : isWsChar c
      · rw [h1, if_pos hc]; rfl
      · rw [h1, if_neg hc]
        simp [trimRightL, hc]
    | cons d t' =>
      have h1 : trimRightL (c :: t) = c :: d :: t' := by
        simp only [trimRightL]
        rw [ht]
      have h2 : trimRightL (d :: t') = d :: t' := by rw [← ht, ih, ht]
      have h3 : trimRightL (c :: d :: t')
          = match trimRightL (d :: t') with
            | [] => if isWsChar c then [] else [c]
            | t'' => c :: t'' := rfl
      rw [h1, h3, h2]

theorem trimL_idem (l : List Char) : trimL (trimL l) = trimL l := by
  have hdw : (trimRightL (l.dropWhile isWsChar)).dropWhile isWsChar
      = trimRightL (l.dropWhile isWsChar) := by
    cases hmc : trimRightL (l.dropWhile isWsChar) with
    | nil => simp
    | cons d t' =>
      cases hac : l.dropWhile isWsChar with
      | nil =>
        rw [hac] at hmc
        exact absurd hmc (by simp [trimRightL])
      | cons c t0 =>
        have hd : d = c := trimRightL_head_eq c t0 d t' (by rw [← hac, hmc])
        have hc : isWsChar c = false := dropWhile_head_not isWsChar l c t0 hac
        rw [List.dropWhile_cons, if_neg (by simp [hd, hc])]
  unfold trimL trimLeftL
  rw [hdw]
  exact trimRightL_idem _

theorem parseJson_trimL (l : List Char) : parseJson (trimL l) = parseJson l := by
  unfold parseJson
  rw [trimL_idem]

/-! ## RepairJSON shape lemmas -/

theorem findIdxL_eq_none (p : Char → Bool) :
    ∀ l : List Char, (∀ x ∈ l, p x = false) → findIdxL p l = none := by
  intro l
  induction l with
  | nil => intro _; rfl
  | cons c t ih =>
    intro h
    have hc : p c = false := h c (by simp)
    simp [findIdxL, hc, ih (fun x hx => h x (by simp [hx]))]

theorem findIdxL_cons_pos (p : Char → Bool) (c : Char) (t : List Char) (h : p c = true) :
    findIdxL p (c :: t) = some 0 := by
  simp [findIdxL, h]

theorem findIdxL_cons_neg (p : Char → Bool) (c : Char) (t : List Char) (h : p c = false) :
    findIdxL p (c :: t) = (findIdxL p t).map (· + 1) := by
  simp [findIdxL, h]

theorem RepairJSON_of_obj_shape (l mid : List Char) (h : trimL l = '{' :: mid ++ ['}']) :
    RepairJSON l = (trimL l, decide (trimL l ≠ l)) := by
  have hlen : (trimL l).length = mid.length + 2 := by simp [h]
  have hfence : (hasPrefixL (trimL l) fenceL && hasSuffixL (trimL l) fenceL) = false := by
    rw [h]
    have : (('`' : Char) == '{') = false := by decide
    simp [hasPrefixL, fenceL, this]
  have hobj : findIdxL (· == '{') (trimL l) = some 0 := by
    rw [h]; exact findIdxL_cons_pos _ _ _ (by decide)
  have harr : findIdxL (· == '[') (trimL l)
      = (findIdxL (· == '[') (mid ++ ['}'])).map (· + 1) := by
    rw [h]; exact findIdxL_cons_neg _ _ _ (by decide)
  have hrev : (trimL l).reverse = '}' :: (mid.reverse ++ ['{']) := by
    rw [h]; simp
  have hlastObj : lastIdxL (· == '}') (trimL l) = some ((trimL l).length - 1) := by
    unfold lastIdxL
    rw [hrev, findIdxL_cons_pos _ _ _ (by decide)]
    simp
  have hlastArr : lastIdxL (· == ']') (trimL l)
      = (findIdxL (· == ']') (mid.reverse ++ ['{'])).map (fun i => (trimL l).length - 1 - (i + 1)) := by
    unfold lastIdxL
    rw [hrev, findIdxL_cons_neg _ _ _ (by decide)]
    simp [Option.map_map]
    rfl
  have hpos : 0 < (trimL l).length := by omega
  have hen : (trimL l).length - 1 + 1 = (trimL l).length := by omega
  have hcond : (decide (0 < (trimL l).length - 1 + 1)
      && decide ((trimL l).length - 1 + 1 ≤ (trimL l).length)) = true := by
    simp only [Bool.and_eq_true, decide_eq_true_eq]
    omega
  simp only [RepairJSON]
  rw [hfence, if_neg (by simp), hobj, harr]
  rcases hA : findIdxL (· == '[') (mid ++ ['}']) with _ | j
  · simp only [Option.map_none']
    simp only [List.drop_zero]
    rw [hlastObj, hlastArr]
    rcases hB : findIdxL (· == ']') (mid.reverse ++ ['{']) with _ | i
    · simp only [Option.map_none']
      simp only [if_pos hcond, hen, List.take_length, ite_self]
    · simp only [Option.map_some']
      have hgt : (trimL l).length - 1 > (trimL l).length - 1 - (i + 1) := by omega
      simp only [if_pos hgt, if_pos hcond, hen, List.take_length, ite_self]
  · simp only [Option.map_some']
    simp only [if_pos (Nat.succ_pos j)]
    simp only [List.drop_zero]
    rw [hlastObj, hlastArr]
    rcases hB : findIdxL (· == ']') (mid.reverse ++ ['{']) with _ | i
    · simp only [Option.map_none']
      simp only [if_pos hcond, hen, List.take_length, ite_self]
    · simp only [Option.map_some']
      have hgt : (trimL l).length - 1 > (trimL l).length - 1 - (i + 1) := by omega
      simp only [if_pos hgt, if_pos hcond, hen, List.take_length, ite_self]

theorem RepairJSON_of_arr_shape (l mid : List Char) (h : trimL l = '[' :: mid ++ [']']) :
    RepairJSON l = (trimL l, decide (trimL l ≠ l)) := by
  have hlen : (trimL l).length = mid.length + 2 := by simp [h]
  have hfence : (hasPrefixL (trimL l) fenceL && hasSuffixL (trimL l) fenceL) = false := by
    rw [h]
    have : (('`' : Char) == '[') = false := by decide
    simp [hasPrefixL, fenceL, this]
  have harr : findIdxL (· == '[') (trimL l) = some 0 := by
    rw [h]; exact findIdxL_cons_pos _ _ _ (by decide)
  have hobj : findIdxL (· == '{') (trimL l)
      = (findIdxL (· == '{') (mid ++ [']'])).map (· + 1) := by
    rw [h]; exact findIdxL_cons_neg _ _ _ (by decide)
  have hrev : (trimL l).reverse = ']' :: (mid.reverse ++ ['[']) := by
    rw [h]; simp
  have hlastArr : lastIdxL (· == ']') (trimL l) = some ((trimL l).length - 1) := by
    unfold lastIdxL
    rw [hrev, findIdxL_cons_pos _ _ _ (by decide)]
    simp
  have hlastObj : lastIdxL (· == '}') (trimL l)
      = (findIdxL (· == '}') (mid.reverse ++ ['['])).map (fun i => (trimL l).length - 1 - (i + 1)) := by
    unfold lastIdxL
    rw [hrev, findIdxL_cons_neg _ _ _ (by decide)]
    simp [Option.map_map]
    rfl
  have hpos : 0 < (trimL l).length := by omega
  have hen : (trimL l).length - 1 + 1 = (trimL l).length := by omega
  have hcond : (decide (0 < (trimL l).length - 1 + 1)
      && decide ((trimL l).length - 1 + 1 ≤ (trimL l).length)) = true := by
    simp only [Bool.and_eq_true, decide_eq_true_eq]
    omega
  simp only [RepairJSON]
  rw [hfence, if_neg (by simp), harr, hobj]
  rcases hA : findIdxL (· == '{') (mid ++ [']']) with _ | j
  · simp only [Option.map_none']
    simp only [List.drop_zero]
    rw [hlastObj, hlastArr]
    rcases hB : findIdxL (· == '}') (mid.reverse ++ ['[']) with _ | i
    · simp only [Option.map_none']
      simp only [if_pos hcond, hen, List.take_length, ite_self]
    · simp only [Option.map_some']
      have hngt : ¬((trimL l).length - 1 - (i + 1) > (trimL l).length - 1) := by omega
      simp only [if_neg hngt, if_pos hcond, hen, List.take_length, ite_self]
  · simp only [Option.map_some']
    have hnlt : ¬(j + 1 < 0) := Nat.not_lt_zero _
    simp only [if_neg hnlt]
    simp only [List.drop_zero]
    rw [hlastObj, hlastArr]
    rcases hB : findIdxL (· == '}') (mid.reverse ++ ['[']) with _ | i
    · simp only [Option.map_none']
      simp only [if_pos hcond, hen, List.take_length, ite_self]
    · simp only [Option.map_some']
      have hngt : ¬((trimL l).length - 1 - (i + 1) > (trimL l).length - 1) := by omega
      simp only [if_neg hngt, if_pos hcond, hen, List.take_length, ite_self]

theorem RepairJSON_of_scalar_shape (l : List Char)
    (hno1 : '{' ∉ trimL l) (hno2 : '[' ∉ trimL l)
    (hfen : ¬(hasPrefixL (trimL l) fenceL = true ∧ hasSuffixL (trimL l) fenceL = true)) :
    RepairJSON l = (trimL l, decide (trimL l ≠ l)) := by
  have hfence : (hasPrefixL (trimL l) fenceL && hasSuffixL (trimL l) fenceL) = false := by
    cases h1 : hasPrefixL (trimL l) fenceL <;> cases h2 : hasSuffixL (trimL l) fenceL <;>
      simp_all
  have hobj : findIdxL (· == '{') (trimL l) = none :=
    findIdxL_eq_none _ _ (fun x hx => beq_eq_false_iff_ne.mpr (fun e => hno1 (e ▸ hx)))
  have harr : findIdxL (· == '[') (trimL l) = none :=
    findIdxL_eq_none _ _ (fun x hx => beq_eq_false_iff_ne.mpr (fun e => hno2 (e ▸ hx)))
  simp only [RepairJSON]
  rw [hfence, if_neg (by simp), hobj, harr]

/-- C7: the claim that `RepairJSON` preserves the parsed value of *every*
valid JSON input fails on the JSON string literal `"{}"` (four
characters): it parses to the string value `{}`, but repair rewrites it to
the two-character text `{}`, which parses to the empty object. -/
theorem C7_counterexample :
    parseJson ['"', '{', '}', '"'] = some (Json.str "\x7b\x7d") ∧
    (RepairJSON ['"', '{', '}', '"']).1 = ['{', '}'] ∧
    parseJson ['{', '}'] = some (Json.obj []) ∧
    Json.str "\x7b\x7d" ≠ Json.obj [] := by
  refine ⟨rfl, by decide, rfl, ?_⟩
  intro hc
  exact Json.noConfusion hc

/-- C7 (amended): `RepairJSON` returns its input trimmed of surrounding
whitespace — hence a text parsing to the same JSON value — whenever the
trimmed input is brace-delimited (`{...}`) or bracket-delimited (`[...]`),
which covers every serialised JSON object or array, or contains no `{` or
`[` at all and is not code-fenced (covering numbers, booleans, null and
brace-free strings).  Idempotence fails only for valid JSON texts outside
these shapes, such as string literals containing braces. -/
theorem C7_theorem (l : List Char)
    (h : (∃ mid, trimL l = '{' :: mid ++ ['}']) ∨ (∃ mid, trimL l = '[' :: mid ++ [']']) ∨
         ('{' ∉ trimL l ∧ '[' ∉ trimL l ∧
          ¬(hasPrefixL (trimL l) fenceL = true ∧ hasSuffixL (trimL l) fenceL = true))) :
    (RepairJSON l).1 = trimL l ∧ parseJson (RepairJSON l).1 = parseJson l := by
  have h1 : (RepairJSON l).1 = trimL l := by
    rcases h with ⟨mid, hm⟩ | ⟨mid, hm⟩ | ⟨ha, hb, hc⟩
    · rw [RepairJSON_of_obj_shape l mid hm]
    · rw [RepairJSON_of_arr_shape l mid hm]
    · rw [RepairJSON_of_scalar_shape l ha hb hc]
  exact ⟨h1, by rw [h1]; exact parseJson_trimL l⟩

/-- C7 witness: the amended theorem applied to the concrete input
`" {} "`. -/
theorem C7_witness :
    (RepairJSON [' ', '{', '}', ' ']).1 = trimL [' ', '{', '}', ' '] ∧
    parseJson (RepairJSON [' ', '{', '}', ' ']).1 = parseJson [' ', '{', '}', ' '] :=
  C7_theorem [' ', '{', '}', ' '] (Or.inl ⟨[], by decide⟩)

/-! ## Typed decode (C8) -/

theorem RepairJSON_snd_eq (l : List Char) :
    (RepairJSON l).2 = decide ((RepairJSON l).1 ≠ l) := rfl

theorem RepairJSON_not_modified (l : List Char) (h : (RepairJSON l).2 = false) :
    (RepairJSON l).1 = l := by
  rw [RepairJSON_snd_eq] at h
  have := of_decide_eq_false h
  exact not_not.mp (fun hne => this hne)

/-- C8: for a final string `s` produced by the tool loop, `Execute[T]`
returns `s` unchanged when `T` is the string type; otherwise it returns
the value parsed from `s`, or, when that parse fails, the value parsed
from `RepairJSON s`; and it returns the sentinel `StructuredOutput` error
exactly when both the direct parse and the repaired re-parse fail.  (When
the repair leaves the text unmodified the source skips the re-parse; that
is equivalent, since the re-parse would run on the identical text.) -/
theorem C8_theorem {T : Type} (d : Decoder T) (s : String)
    (clientResult : Except GoError String) (hok : clientResult = .ok s) :
    (d.isStringType = true → ExecuteTyped d clientResult = .ok (.fromStr s)) ∧
    (d.isStringType = false →
      (∀ v, d.unmarshal s.toList = some v → ExecuteTyped d clientResult = .ok (.val v)) ∧
      (d.unmarshal s.toList = none →
        ∀ v, d.unmarshal (RepairJSON s.toList).1 = some v →
          ExecuteTyped d clientResult = .ok (.val v)) ∧
      (ExecuteTyped d clientResult = .error .structuredOutput ↔
        d.unmarshal s.toList = none ∧ d.unmarshal (RepairJSON s.toList).1 = none)) := by
  subst hok
  simp only [String.toList]
  constructor
  · intro hstr
    simp [ExecuteTyped, executeDecode, hstr]
  · intro hnstr
    refine ⟨?_, ?_, ?_⟩
    · intro v hv
      simp [ExecuteTyped, executeDecode, hnstr, hv]
    · intro hnone v hv
      have hmod : (RepairJSON s.data).2 = true := by
        cases hflag : (RepairJSON s.data).2 with
        | true => rfl
        | false =>
          rw [RepairJSON_not_modified _ hflag, hnone] at hv
          cases hv
      simp [ExecuteTyped, executeDecode, hnstr, hnone, hmod, hv]
    · constructor
      · intro herr
        cases hu : d.unmarshal s.data with
        | some v => simp [ExecuteTyped, executeDecode, hnstr, hu] at herr
        | none =>
          refine ⟨rfl, ?_⟩
          cases hflag : (RepairJSON s.data).2 with
          | false => rw [RepairJSON_not_modified _ hflag]; exact hu
          | true =>
            cases hr : d.unmarshal (RepairJSON s.data).1 with
            | none => rfl
            | some v => simp [ExecuteTyped, executeDecode, hnstr, hu, hflag, hr] at herr
      · rintro ⟨hu, hr⟩
        cases hflag : (RepairJSON s.data).2 with
        | false => simp [ExecuteTyped, executeDecode, hnstr, hu, hflag]
        | true => simp [ExecuteTyped, executeDecode, hnstr, hu, hflag, hr]

/-- A concrete decoder for C8's witness: a non-string result type whose
unmarshal accepts exactly the two-character text `42`. -/
def natDecoder : Decoder Nat :=
  { isStringType := false,
    unmarshal := fun l => if l = ['4', '2'] then some 42 else none }

/-- C8 witness: the theorem applied to the decoder above and the final
string "42". -/
theorem C8_witness :
    (natDecoder.isStringType = true →
       ExecuteTyped natDecoder (.ok "42") = .ok (.fromStr "42")) ∧
    (natDecoder.isStringType = false →
      (∀ v, natDecoder.unmarshal "42".toList = some v →
         ExecuteTyped natDecoder (.ok "42") = .ok (.val v)) ∧
      (natDecoder.unmarshal "42".toList = none →
        ∀ v, natDecoder.unmarshal (RepairJSON "42".toList).1 = some v →
          ExecuteTyped natDecoder (.ok "42") = .ok (.val v)) ∧
      (ExecuteTyped natDecoder (.ok "42") = .error .structuredOutput ↔
        natDecoder.unmarshal "42".toList = none ∧
        natDecoder.unmarshal (RepairJSON "42".toList).1 = none)) :=
  C8_theorem natDecoder "42" (.ok "42") rfl

/-! ## Model selection (C3, C4) -/

/-- C3: the claim that an explicit `Request.Model` always selects exactly
the named model (unless capability gating fails) is refuted by the
web-variant redirect: with `AllowWebSearch` set and an `openai` provider,
`selectModel` returns the `WebVariant` model and key, not the named one,
even though the named model passes every capability check of the claim. -/
theorem C3_counterexample :
    selectModel regW reqW = .ok (mcWeb, "gpt4o-web") ∧
    lookupModel regW reqW.model = some mcWebBase ∧
    mcWebBase.supportsTools = true ∧ mcWebBase.supportsWebSearch = true ∧
    reqW.tools.length = 0 ∧
    ("gpt4o-web" : String) ≠ reqW.model ∧ mcWeb ≠ mcWebBase :=
  ⟨rfl, rfl, rfl, rfl, rfl, by decide, by decide⟩

/-- C3 (amended): for a non-empty `Request.Model`, selection returns
exactly the named model and key unless (a) the key is absent
(`NoMatchingModel`); (b) `AllowWebSearch` is set and the named model's
provider is `"openai"`, in which case selection redirects to the model
named by `WebVariant` (or, when that field is empty, to the key
`Model+"-web"`), failing with `NoMatchingModel` when the redirect target
is absent, and skipping the capability checks; or (c) the request needs
tools or web search the named model does not support
(`NoMatchingModel`). -/
theorem C3_theorem (models : Registry) (req : Request) (hm : req.model ≠ "") :
    (lookupModel models req.model = none →
       selectModel models req = .error .noMatchingModel) ∧
    (∀ mc, lookupModel models req.model = some mc →
      (¬(req.allowWebSearch ∧ mc.provider = "openai") →
        ((req.tools.length > 0 ∧ mc.supportsTools = false) ∨
         (req.allowWebSearch ∧ mc.supportsWebSearch = false) →
           selectModel models req = .error .noMatchingModel) ∧
        (¬(req.tools.length > 0 ∧ mc.supportsTools = false) →
         ¬(req.allowWebSearch ∧ mc.supportsWebSearch = false) →
           selectModel models req = .ok (mc, req.model))) ∧
      (req.allowWebSearch ∧ mc.provider = "openai" →
        (mc.webVariant ≠ "" →
          selectModel models req =
            (match lookupModel models mc.webVariant with
             | some w => .ok (w, mc.webVariant)
             | none => .error .noMatchingModel)) ∧
        (mc.webVariant = "" →
          selectModel models req =
            (match lookupModel models (req.model ++ "-web") with
             | some w => .ok (w, req.model ++ "-web")
             | none => .error .noMatchingModel)))) := by
  constructor
  · intro hnone
    simp only [selectModel, if_pos hm, hnone]
  · intro mc hsome
    constructor
    · intro hnoweb
      constructor
      · intro hgate
        rcases hgate with h1 | h2
        · simp only [selectModel, if_pos hm, hsome, if_neg hnoweb, if_pos h1]
        · by_cases h1 : req.tools.length > 0 ∧ mc.supportsTools = false
          · simp only [selectModel, if_pos hm, hsome, if_neg hnoweb, if_pos h1]
          · simp only [selectModel, if_pos hm, hsome, if_neg hnoweb, if_neg h1, if_pos h2]
      · intro h1 h2
        simp only [selectModel, if_pos hm, hsome, if_neg hnoweb, if_neg h1, if_neg h2]
    · intro hweb
      constructor
      · intro hwv
        simp only [selectModel, if_pos hm, hsome, if_pos hweb, if_pos hwv]
      · intro hwv
        simp only [selectModel, if_pos hm, hsome, if_pos hweb, hwv]
        rw [if_neg (by simp)]

/-- C3 witness: the amended theorem applied to the concrete registry and
request of the counterexample. -/
theorem C3_witness :
    (lookupModel regW reqW.model = none →
       selectModel regW reqW = .error .noMatchingModel) ∧
    (∀ mc, lookupModel regW reqW.model = some mc →
      (¬(reqW.allowWebSearch ∧ mc.provider = "openai") →
        ((reqW.tools.length > 0 ∧ mc.supportsTools = false) ∨
         (reqW.allowWebSearch ∧ mc.supportsWebSearch = false) →
           selectModel regW reqW = .error .noMatchingModel) ∧
        (¬(reqW.tools.length > 0 ∧ mc.supportsTools = false) →
         ¬(reqW.allowWebSearch ∧ mc.supportsWebSearch = false) →
           selectModel regW reqW = .ok (mc, reqW.model))) ∧
      (reqW.allowWebSearch ∧ mc.provider = "openai" →
        (mc.webVariant ≠ "" →
          selectModel regW reqW =
            (match lookupModel regW mc.webVariant with
             | some w => .ok (w, mc.webVariant)
             | none => .error .noMatchingModel)) ∧
        (mc.webVariant = "" →
          selectModel regW reqW =
            (match lookupModel regW (reqW.model ++ "-web") with
             | some w => .ok (w, reqW.model ++ "-web")
             | none => .error .noMatchingModel)))) :=
  C3_theorem regW reqW (by decide)

/-- The capability constraints of the auto-selection path, as a predicate
on one model. -/
def autoEligible (req : Request) (mc : ModelConfig) : Prop :=
  (req.allowWebSearch = true → mc.supportsWebSearch = true) ∧
  (req.tools.length > 0 → mc.supportsTools = true)

/-- A registry key qualifies for auto selection. -/
def keyEligible (models : Registry) (req : Request) (k : String) : Prop :=
  ∃ mc, lookupModel models k = some mc ∧ autoEligible req mc

theorem autoScan_spec (models : Registry) (req : Request) :
    ∀ keys : List String, List.Sorted (· ≤ ·) keys →
      (∀ mc k, autoScan models req keys = .ok (mc, k) →
         k ∈ keys ∧ lookupModel models k = some mc ∧ autoEligible req mc ∧
         ∀ k' ∈ keys, k' < k → ¬ keyEligible models req k') ∧
      (autoScan models req keys = .error .noMatchingModel ↔
         ∀ k ∈ keys, ¬ keyEligible models req k) := by
  intro keys
  induction keys with
  | nil =>
    intro _
    refine ⟨?_, ?_⟩
    · intro mc k h
      simp [autoScan] at h
    · simp [autoScan]
  | cons key rest ih =>
    intro hsort
    have hrest := ih ((List.sorted_cons.mp hsort).2)
    have hhead := (List.sorted_cons.mp hsort).1
    cases hlk : lookupModel models key with
    | none =>
      have hne : ¬ keyEligible models req key := by
        rintro ⟨mc', hl', _⟩
        rw [hlk] at hl'
        cases hl'
      have hstep : autoScan models req (key :: rest) = autoScan models req rest := by
        simp only [autoScan, hlk]
      refine ⟨?_, ?_⟩
      · intro mc k h
        rw [hstep] at h
        obtain ⟨hk, hl, hel, hfirst⟩ := hrest.1 mc k h
        refine ⟨List.mem_cons_of_mem _ hk, hl, hel, ?_⟩
        intro k' hk' hlt
        rcases List.mem_cons.mp hk' with rfl | hk'
        · exact hne
        · exact hfirst k' hk' hlt
      · rw [hstep, hrest.2]
        constructor
        · intro hall k hk
          rcases List.mem_cons.mp hk with rfl | hk
          · exact hne
          · exact hall k hk
        · intro hall k hk
          exact hall k (List.mem_cons_of_mem _ hk)
    | some mc =>
      by_cases hws : req.allowWebSearch ∧ mc.supportsWebSearch = false
      · have hne : ¬ keyEligible models req key := by
          rintro ⟨mc', hl', hel⟩
          rw [hlk] at hl'
          cases hl'
          rw [hel.1 hws.1] at hws
          exact absurd hws.2 (by simp)
        have hstep : autoScan models req (key :: rest) = autoScan models req rest := by
          simp only [autoScan, hlk, if_pos hws]
        refine ⟨?_, ?_⟩
        · intro mc0 k h
          rw [hstep] at h
          obtain ⟨hk, hl, hel, hfirst⟩ := hrest.1 mc0 k h
          refine ⟨List.mem_cons_of_mem _ hk, hl, hel, ?_⟩
          intro k' hk' hlt
          rcases List.mem_cons.mp hk' with rfl | hk'
          · exact hne
          · exact hfirst k' hk' hlt
        · rw [hstep, hrest.2]
          constructor
          · intro hall k hk
            rcases List.mem_cons.mp hk with rfl | hk
            · exact hne
            · exact hall k hk
          · intro hall k hk
            exact hall k (List.mem_cons_of_mem _ hk)
      · by_cases htl : req.tools.length > 0 ∧ mc.supportsTools = false
        · have hne : ¬ keyEligible models req key := by
            rintro ⟨mc', hl', hel⟩
            rw [hlk] at hl'
            cases hl'
            rw [hel.2 htl.1] at htl
            exact absurd htl.2 (by simp)
          have hstep : autoScan models req (key :: rest) = autoScan models req rest := by
            simp only [autoScan, hlk, if_neg hws, if_pos htl]
          refine ⟨?_, ?_⟩
          · intro mc0 k h
            rw [hstep] at h
            obtain ⟨hk, hl, hel, hfirst⟩ := hrest.1 mc0 k h
            refine ⟨List.mem_cons_of_mem _ hk, hl, hel, ?_⟩
            intro k' hk' hlt
            rcases List.mem_cons.mp hk' with rfl | hk'
            · exact hne
            · exact hfirst k' hk' hlt
          · rw [hstep, hrest.2]
            constructor
            · intro hall k hk
              rcases List.mem_cons.mp hk with rfl | hk
              · exact hne
              · exact hall k hk
            · intro hall k hk
              exact hall k (List.mem_cons_of_mem _ hk)
        · have hel : autoEligible req mc := by
            constructor
            · intro hw
              cases hsw : mc.supportsWebSearch with
              | true => rfl
              | false => exact absurd ⟨hw, hsw⟩ hws
            · intro ht
              cases hst : mc.supportsTools with
              | true => rfl
              | false => exact absurd ⟨ht, hst⟩ htl
          have hstep : autoScan models req (key :: rest) = .ok (mc, key) := by
            simp only [autoScan, hlk, if_neg hws, if_neg htl]
          have hkeyel : keyEligible models req key := ⟨mc, hlk, hel⟩
          refine ⟨?_, ?_⟩
          · intro mc0 k h
            rw [hstep] at h
            cases h
            refine ⟨List.mem_cons_self _ _, hlk, hel, ?_⟩
            intro k' hk' hlt
            rcases List.mem_cons.mp hk' with rfl | hk'
            · exact absurd hlt (lt_irrefl _)
            · exact absurd hlt (not_lt_of_ge (hhead k' hk'))
          · rw [hstep]
            constructor
            · intro h
              cases h
            · intro hall
              exact absurd hkeyel (hall key (List.mem_cons_self _ _))

theorem autoScan_congr (models : Registry) (req req' : Request)
    (hweb : req'.allowWebSearch = req.allowWebSearch)
    (htools : req'.tools.length > 0 ↔ req.tools.length > 0) :
    ∀ keys : List String, autoScan models req' keys = autoScan models req keys := by
  intro keys
  induction keys with
  | nil => rfl
  | cons key rest ih =>
    cases hlk : lookupModel models key with
    | none => simp only [autoScan, hlk, ih]
    | some mc =>
      have e1 : (req'.allowWebSearch ∧ mc.supportsWebSearch = false) ↔
          (req.allowWebSearch ∧ mc.supportsWebSearch = false) := by rw [hweb]
      have e2 : (req'.tools.length > 0 ∧ mc.supportsTools = false) ↔
          (req.tools.length > 0 ∧ mc.supportsTools = false) := and_congr_left' htools
      simp only [autoScan, hlk]
      rw [if_congr e1 rfl rfl, if_congr e2 rfl rfl, ih]

/-- C4: with an empty `Request.Model`, `selectModel` scans the registry
keys in lexicographic (sorted) order and returns the first model whose
capabilities satisfy the request (`SupportsWebSearch` when web search is
requested, `SupportsTools` when tools are present), returning
`NoMatchingModel` exactly when no key qualifies; and the outcome depends
only on the registry and the capability constraints, so identical
constraints select the same key across runs. -/
theorem C4_theorem (models : Registry) (req : Request) (hm : req.model = "") :
    (∀ mc k, selectModel models req = .ok (mc, k) →
       k ∈ models.map Prod.fst ∧ lookupModel models k = some mc ∧ autoEligible req mc ∧
       ∀ k' ∈ models.map Prod.fst, k' < k → ¬ keyEligible models req k') ∧
    (selectModel models req = .error .noMatchingModel ↔
       ∀ k ∈ models.map Prod.fst, ¬ keyEligible models req k) ∧
    (∀ req' : Request, req'.model = "" →
       req'.allowWebSearch = req.allowWebSearch →
       (req'.tools.length > 0 ↔ req.tools.length > 0) →
       selectModel models req' = selectModel models req) := by
  have hsel : selectModel models req = autoScan models req (sortedKeys models) := by
    simp only [selectModel, hm]
    rw [if_neg (by simp)]
  have hsorted : List.Sorted (· ≤ ·) (sortedKeys models) :=
    List.sorted_insertionSort _ _
  have hperm : ∀ a : String, a ∈ sortedKeys models ↔ a ∈ models.map Prod.fst :=
    fun a => (List.perm_insertionSort _ _).mem_iff
  have hspec := autoScan_spec models req (sortedKeys models) hsorted
  refine ⟨?_, ?_, ?_⟩
  · intro mc k h
    rw [hsel] at h
    obtain ⟨hk, hl, hel, hfirst⟩ := hspec.1 mc k h
    exact ⟨(hperm k).mp hk, hl, hel,
      fun k' hk' hlt => hfirst k' ((hperm k').mpr hk') hlt⟩
  · rw [hsel, hspec.2]
    constructor
    · intro hall k hk
      exact hall k ((hperm k).mpr hk)
    · intro hall k hk
      exact hall k ((hperm k).mp hk)
  · intro req' hm' hweb htools
    have hsel' : selectModel models req' = autoScan models req' (sortedKeys models) := by
      simp only [selectModel, hm']
      rw [if_neg (by simp)]
    rw [hsel, hsel', autoScan_congr models req req' hweb htools]

/-- A request on the auto path (empty model) used by C4's witness. -/
def reqAuto : Request :=
  { model := "", messages := [⟨"user", "hi", [], [], []⟩], allowWebSearch := false,
    tools := [echoTool], maxTokens := 0, temperature := 0, topP := 0, timeout := 0 }

/-- C4 witness: the error characterisation of the theorem at a concrete
registry and auto-path request. -/
theorem C4_witness :
    selectModel regW reqAuto = .error .noMatchingModel ↔
      ∀ k ∈ regW.map Prod.fst, ¬ keyEligible regW reqAuto k :=
  (C4_theorem regW reqAuto rfl).2.1

/-! ## Retry engine (C5) -/

/-- The waits an all-transient run performs starting after the `k`-th
failed call, for `rem` retries. -/
def retryWaits (cfg : Retry.Config) (rand : Nat → ℚ) : Nat → Nat → List Int
  | _, 0 => []
  | k, rem + 1 =>
    (Retry.delayAt cfg k + Retry.jitterAt cfg rand k) :: retryWaits cfg rand (k + 1) rem

theorem retryWaits_length (cfg : Retry.Config) (rand : Nat → ℚ) :
    ∀ rem k, (retryWaits cfg rand k rem).length = rem := by
  intro rem
  induction rem with
  | zero => intro k; rfl
  | succ n ih => intro k; simp [retryWaits, ih]

theorem retryWaits_get (cfg : Retry.Config) (rand : Nat → ℚ) :
    ∀ rem k i, i < rem →
      (retryWaits cfg rand k rem).get? i
        = some (Retry.delayAt cfg (k + i) + Retry.jitterAt cfg rand (k + i)) := by
  intro rem
  induction rem with
  | zero => intro k i h; omega
  | succ n ih =>
    intro k i h
    cases i with
    | zero => simp [retryWaits]
    | succ j =>
      have hstep := ih (k + 1) j (by omega)
      have harg : k + 1 + j = k + (j + 1) := by omega
      rw [harg] at hstep
      simp only [retryWaits, List.get?_cons_succ]
      rw [hstep]

theorem retryLoop_allTransient (cfg : Retry.Config) (errs : Nat → GoError) (rand : Nat → ℚ)
    (htrans : ∀ k, Retry.IsTransient (errs k) = true) :
    ∀ (rem k fuel : Nat), rem ≤ fuel → ((k : Int) + 1 + (rem : Int) = cfg.maxAttempts) →
      Retry.retryLoop (fun j => some (errs j)) rand cfg k fuel =
        ⟨some (errs (k + rem)), k + rem + 1, retryWaits cfg rand k rem⟩ := by
  intro rem
  induction rem with
  | zero =>
    intro k fuel _ hk
    have hstop : cfg.maxAttempts ≤ (k + 1 : Int) := by omega
    rw [Retry.retryLoop]
    simp only [htrans k]
    rw [if_neg (by simp), if_pos hstop]
    simp [retryWaits]
  | succ n ih =>
    intro k fuel hfuel hk
    have hgo : ¬(cfg.maxAttempts ≤ (k + 1 : Int)) := by
      push_cast at hk ⊢
      omega
    cases fuel with
    | zero => omega
    | succ fuel' =>
      have hrec := ih (k + 1) fuel' (by omega) (by push_cast at hk ⊢; omega)
      rw [Retry.retryLoop]
      simp only [htrans k]
      rw [if_neg (by simp), if_neg hgo]
      simp only [hrec]
      have h1 : k + 1 + n = k + (n + 1) := by omega
      simp only [retryWaits]
      rw [h1]

theorem delayAt_nonneg (cfg : Retry.Config) (k : Nat)
    (hbase : 0 ≤ cfg.baseDelay) (hmaxd : 0 ≤ cfg.maxDelay) :
    0 ≤ Retry.delayAt cfg k := by
  unfold Retry.delayAt
  have : (0 : Int) ≤ cfg.baseDelay * 2 ^ k :=
    mul_nonneg hbase (pow_nonneg (by norm_num) _)
  exact le_min this hmaxd

theorem jitterAt_bounds (cfg : Retry.Config) (rand : Nat → ℚ) (k : Nat)
    (h0 : 0 ≤ rand k) (h1 : rand k < 1) (hratio : 0 ≤ cfg.jitterRatio)
    (hd : 0 ≤ Retry.delayAt cfg k) :
    0 ≤ Retry.jitterAt cfg rand k ∧
      (Retry.jitterAt cfg rand k : ℚ) ≤ cfg.jitterRatio * (Retry.delayAt cfg k : ℚ) := by
  have hdq : (0 : ℚ) ≤ (Retry.delayAt cfg k : ℚ) := by exact_mod_cast hd
  have hx : (0 : ℚ) ≤ rand k * cfg.jitterRatio * (Retry.delayAt cfg k : ℚ) :=
    mul_nonneg (mul_nonneg h0 hratio) hdq
  constructor
  · exact Int.floor_nonneg.mpr hx
  · have hle : rand k * cfg.jitterRatio * (Retry.delayAt cfg k : ℚ)
        ≤ cfg.jitterRatio * (Retry.delayAt cfg k : ℚ) := by
      rw [mul_assoc]
      calc rand k * (cfg.jitterRatio * (Retry.delayAt cfg k : ℚ))
          ≤ 1 * (cfg.jitterRatio * (Retry.delayAt cfg k : ℚ)) :=
            mul_le_mul_of_nonneg_right (le_of_lt h1) (mul_nonneg hratio hdq)
        _ = cfg.jitterRatio * (Retry.delayAt cfg k : ℚ) := one_mul _
    exact le_trans (Int.floor_le _) hle

/-- C5: with `MaxAttempts ≥ 1`, an always-transient thunk and a
never-firing cancellation token, `WithRetryConfig` invokes the thunk
exactly `MaxAttempts` times, returns the last error unchanged, and before
retry `i` (0-based) waits `min(BaseDelay·2^i, MaxDelay)` plus a jitter
drawn as `⌊rand·JitterRatio·delay⌋`, which lies in
`[0, JitterRatio·delay]`. -/
theorem C5_theorem (cfg : Retry.Config) (errs : Nat → GoError) (rand : Nat → ℚ)
    (hmax : 1 ≤ cfg.maxAttempts)
    (htrans : ∀ k, Retry.IsTransient (errs k) = true)
    (hratio : 0 ≤ cfg.jitterRatio)
    (hrand : ∀ k, 0 ≤ rand k ∧ rand k < 1)
    (hbase : 0 ≤ cfg.baseDelay) (hmaxd : 0 ≤ cfg.maxDelay) :
    (Retry.WithRetryConfig (fun j => some (errs j)) rand cfg).calls = cfg.maxAttempts.toNat ∧
    (Retry.WithRetryConfig (fun j => some (errs j)) rand cfg).result
      = some (errs (cfg.maxAttempts.toNat - 1)) ∧
    (Retry.WithRetryConfig (fun j => some (errs j)) rand cfg).waits.length
      = cfg.maxAttempts.toNat - 1 ∧
    (∀ i, i < cfg.maxAttempts.toNat - 1 →
       (Retry.WithRetryConfig (fun j => some (errs j)) rand cfg).waits.get? i
         = some (Retry.delayAt cfg i + Retry.jitterAt cfg rand i) ∧
       0 ≤ Retry.jitterAt cfg rand i ∧
       (Retry.jitterAt cfg rand i : ℚ) ≤ cfg.jitterRatio * (Retry.delayAt cfg i : ℚ)) := by
  have hrun := retryLoop_allTransient cfg errs rand htrans (cfg.maxAttempts.toNat - 1) 0
    cfg.maxAttempts.toNat (by omega) (by omega)
  unfold Retry.WithRetryConfig
  rw [hrun]
  refine ⟨by simp; omega, by simp, retryWaits_length cfg rand _ _, ?_⟩
  intro i hi
  refine ⟨by simpa using retryWaits_get cfg rand _ 0 i hi, ?_, ?_⟩
  · exact (jitterAt_bounds cfg rand i (hrand i).1 (hrand i).2 hratio
      (delayAt_nonneg cfg i hbase hmaxd)).1
  · exact (jitterAt_bounds cfg rand i (hrand i).1 (hrand i).2 hratio
      (delayAt_nonneg cfg i hbase hmaxd)).2

/-- The retry configuration of the source's `TestWithRetryConfig`. -/
def cfgTest : Retry.Config :=
  { maxAttempts := 2, baseDelay := 50000000, maxDelay := 200000000, jitterRatio := 1 / 10 }

/-- C5 witness: the theorem at the test configuration, a constant 429
error and a constant random draw of one half. -/
theorem C5_witness :
    (Retry.WithRetryConfig (fun _ => some (GoError.httpStatus 429 "rate limited" "test"))
        (fun _ => 1 / 2) cfgTest).calls = cfgTest.maxAttempts.toNat ∧
    (Retry.WithRetryConfig (fun _ => some (GoError.httpStatus 429 "rate limited" "test"))
        (fun _ => 1 / 2) cfgTest).result
      = some (GoError.httpStatus 429 "rate limited" "test") ∧
    (Retry.WithRetryConfig (fun _ => some (GoError.httpStatus 429 "rate limited" "test"))
        (fun _ => 1 / 2) cfgTest).waits.length = cfgTest.maxAttempts.toNat - 1 ∧
    (∀ i, i < cfgTest.maxAttempts.toNat - 1 →
       (Retry.WithRetryConfig (fun _ => some (GoError.httpStatus 429 "rate limited" "test"))
           (fun _ => 1 / 2) cfgTest).waits.get? i
         = some (Retry.delayAt cfgTest i + Retry.jitterAt cfgTest (fun _ => 1 / 2) i) ∧
       0 ≤ Retry.jitterAt cfgTest (fun _ => 1 / 2) i ∧
       (Retry.jitterAt cfgTest (fun _ => 1 / 2) i : ℚ)
         ≤ cfgTest.jitterRatio * (Retry.delayAt cfgTest i : ℚ)) :=
  C5_theorem cfgTest (fun _ => GoError.httpStatus 429 "rate limited" "test") (fun _ => 1 / 2)
    (by norm_num [cfgTest]) (fun _ => rfl) (by norm_num [cfgTest])
    (fun _ => by norm_num) (by norm_num [cfgTest]) (by norm_num [cfgTest])

/-! ## Tool parameter reflection and schema composition (C9) -/

/-- A field contributes a parameter: exported and not tagged `json:"-"`. -/
def fieldIncludedB (f : FieldDesc) : Bool :=
  f.exported && f.jsonTag != "-"

/-- The parameter name of a field, as the claim states it: the JSON tag's
first comma-component when the tag is present and that component is
non-empty, the raw field name otherwise. -/
def fieldParamName (f : FieldDesc) : String :=
  if f.jsonTag ≠ "" ∧ (splitComma f.jsonTag).headD "" ≠ "" then (splitComma f.jsonTag).headD ""
  else f.name

/-- Requiredness as the claim states it: non-pointer fields without
`required:"false"`, plus any field with `required:"true"`. -/
def fieldRequiredSpec (f : FieldDesc) : Bool :=
  (!isPtrType f.typ && f.requiredTag != "false") || f.requiredTag == "true"

/-- The included fields, in order. -/
def includedFields (fields : List FieldDesc) : List FieldDesc :=
  fields.filter fieldIncludedB

/-- The required parameter names, in field order. -/
def requiredNames (fields : List FieldDesc) : List String :=
  ((includedFields fields).filter fieldRequiredSpec).map fieldParamName

theorem GenerateToolParameters_eq (fields : List FieldDesc) :
    GenerateToolParameters fields = (includedFields fields).map
      (fun f => { name := fieldParamName f, required := fieldRequiredSpec f,
                  description := f.descriptionTag, schema := generateSchemaForType f.typ }) := by
  induction fields with
  | nil => rfl
  | cons f rest ih =>
    by_cases hexp : f.exported = false
    · have hincl : fieldIncludedB f = false := by
        unfold fieldIncludedB
        rw [hexp]
        simp
      have h1 : GenerateToolParameters (f :: rest) = GenerateToolParameters rest := by
        simp [GenerateToolParameters, hexp]
      rw [h1, ih]
      simp [includedFields, List.filter_cons, hincl]
    · have hexp' : f.exported = true := by
        cases hx : f.exported with
        | false => exact absurd hx hexp
        | true => rfl
      by_cases hdash : f.jsonTag = "-"
      · have hincl : fieldIncludedB f = false := by
          unfold fieldIncludedB
          rw [hdash]
          simp
        have h1 : GenerateToolParameters (f :: rest) = GenerateToolParameters rest := by
          simp [GenerateToolParameters, hexp', hdash]
        rw [h1, ih]
        simp [includedFields, List.filter_cons, hincl]
      · have hincl : fieldIncludedB f = true := by
          unfold fieldIncludedB
          rw [hexp']
          simp [bne_iff_ne]
          exact hdash
        have hname :
            (if f.jsonTag ≠ "" then
               if (splitComma f.jsonTag).headD "" ≠ "" then (splitComma f.jsonTag).headD ""
               else f.name
             else f.name) = fieldParamName f := by
          by_cases htag : f.jsonTag = ""
          · simp [fieldParamName, htag]
          · by_cases hh : (splitComma f.jsonTag).headD "" = ""
            · simp [fieldParamName, htag, hh]
            · simp [fieldParamName, htag, hh]
        have hreq :
            (if f.requiredTag = "false" then false
             else if f.requiredTag = "true" then true
             else !(isPtrType f.typ)) = fieldRequiredSpec f := by
          by_cases hf : f.requiredTag = "false"
          · simp [fieldRequiredSpec, hf]
          · by_cases ht : f.requiredTag = "true"
            · simp [fieldRequiredSpec, ht, hf]
            · have hbne : (f.requiredTag != "false") = true := bne_iff_ne.mpr hf
              have hbeq : (f.requiredTag == "true") = false := beq_eq_false_iff_ne.mpr ht
              simp [fieldRequiredSpec, hbne, hbeq, hf, ht]
        have h1 : GenerateToolParameters (f :: rest)
            = { name := fieldParamName f, required := fieldRequiredSpec f,
                description := f.descriptionTag,
                schema := generateSchemaForType f.typ } :: GenerateToolParameters rest := by
          simp only [GenerateToolParameters,
            if_neg (show ¬(f.exported = false) by simp [hexp']), if_neg hdash]
          rw [← hname, ← hreq]
        rw [h1, ih]
        simp [includedFields, List.filter_cons, hincl]

theorem mapInsert_of_not_mem (m : List (String × Json)) (k : String) (v : Json)
    (h : (m.any (fun p => p.1 == k)) = false) : mapInsert m k v = m ++ [(k, v)] := by
  simp [mapInsert, h]

theorem schemaFold_spec (ps : List ToolParameter) :
    ∀ acc : List (String × Json) × List String,
      (∀ p ∈ ps, ∀ q ∈ acc.1, q.1 ≠ p.name) →
      (ps.map ToolParameter.name).Nodup →
      ps.foldl
        (fun (acc : List (String × Json) × List String) p =>
          let schema := p.schema.getD (Json.obj [("type", Json.str "string")])
          (mapInsert acc.1 p.name schema, if p.required then acc.2 ++ [p.name] else acc.2))
        acc
      = (acc.1 ++ ps.map (fun p => (p.name, p.schema.getD (Json.obj [("type", Json.str "string")]))),
         acc.2 ++ (ps.filter (fun p => p.required)).map ToolParameter.name) := by
  induction ps with
  | nil => intro acc _ _; simp
  | cons p rest ih =>
    intro acc hdisj hnodup
    have hcons : (∀ x ∈ rest, ¬ x.name = p.name) ∧ (rest.map ToolParameter.name).Nodup := by
      simpa using hnodup
    have hany : (acc.1.any (fun q => q.1 == p.name)) = false := by
      rw [List.any_eq_false]
      intro q hq
      simp only [beq_iff_eq]
      exact hdisj p (List.mem_cons_self _ _) q hq
    have hnotin : p.name ∉ (rest.map ToolParameter.name) := by
      intro hmem
      obtain ⟨x, hx, he⟩ := List.mem_map.mp hmem
      exact hcons.1 x hx he
    have hdisj' : ∀ p' ∈ rest,
        ∀ q ∈ acc.1 ++ [(p.name, p.schema.getD (Json.obj [("type", Json.str "string")]))],
        q.1 ≠ p'.name := by
      intro p' hp' q hq
      rcases List.mem_append.mp hq with hq | hq
      · exact hdisj p' (List.mem_cons_of_mem _ hp') q hq
      · rcases List.mem_singleton.mp hq with rfl
        intro he
        have hpn : p.name = p'.name := he
        apply hnotin
        rw [hpn]
        exact List.mem_map_of_mem ToolParameter.name hp'
    simp only [List.foldl_cons]
    rw [mapInsert_of_not_mem _ _ _ hany]
    rw [ih _ hdisj' hcons.2]
    by_cases hr : p.required = true
    · simp [hr, List.filter_cons, List.append_assoc]
    · have hr' : p.required = false := by
        cases hx : p.required with
        | true => exact absurd hx hr
        | false => rfl
      simp [hr', List.filter_cons, List.append_assoc]

/-- C9: reflecting a parameter record's fields and composing the result
yields a JSON Schema object with `type:"object"`, a `properties` map
keyed by the fields' JSON-tag names (raw field name when the tag is
absent; fields tagged `-` and unexported fields skipped), and a
`required` list holding exactly the names of the required fields —
non-pointer fields without `required:"false"` plus any field with
`required:"true"` — the `required` key being omitted when that list is
empty.  (Distinct parameter names are assumed, as with any well-formed
record.) -/
theorem C9_theorem (name desc : String) (fields : List FieldDesc)
    (hnodup : ((includedFields fields).map fieldParamName).Nodup) :
    GenerateJSONSchemaFromToolDef
      { name := name, description := desc,
        parameters := (GenerateToolParameters fields).map toolParamOfMap }
    = Json.obj (("type", Json.str "object")
        :: ("properties", Json.obj ((includedFields fields).map
              (fun f => (fieldParamName f, generateSchemaForType f.typ))))
        :: (if requiredNames fields = [] then []
            else [("required", Json.arr ((requiredNames fields).map Json.str))])) := by
  have hparams : (GenerateToolParameters fields).map toolParamOfMap
      = (includedFields fields).map (fun f =>
          { name := fieldParamName f, required := fieldRequiredSpec f,
            description := f.descriptionTag,
            schema := some (generateSchemaForType f.typ) : ToolParameter }) := by
    rw [GenerateToolParameters_eq]
    simp [toolParamOfMap, Function.comp]
  have hnames : (((includedFields fields).map (fun f =>
      { name := fieldParamName f, required := fieldRequiredSpec f,
        description := f.descriptionTag,
        schema := some (generateSchemaForType f.typ) : ToolParameter })).map ToolParameter.name).Nodup := by
    simpa [Function.comp] using hnodup
  have hdisj : ∀ p ∈ ((includedFields fields).map (fun f =>
      { name := fieldParamName f, required := fieldRequiredSpec f,
        description := f.descriptionTag,
        schema := some (generateSchemaForType f.typ) : ToolParameter })),
      ∀ q ∈ ([] : List (String × Json)), q.1 ≠ p.name := by
    intro p _ q hq
    cases hq
  unfold GenerateJSONSchemaFromToolDef
  rw [hparams, schemaFold_spec _ ([], []) hdisj hnames]
  simp only [List.nil_append, List.map_map, List.filter_map, Function.comp_def,
    Option.getD_some]
  have hreqeq : ((includedFields fields).filter (fun f => fieldRequiredSpec f)).map fieldParamName
      = requiredNames fields := rfl
  simp only [hreqeq]
  rcases h : requiredNames fields with _ | ⟨r, rs⟩
  · simp [h]
  · have hfuse : List.map (fun x => Json.str (fieldParamName x))
        (List.filter (fun x => fieldRequiredSpec x) (includedFields fields))
        = List.map Json.str (requiredNames fields) := by
      rw [← hreqeq, List.map_map]
      rfl
    simp [h, hfuse]

/-- A concrete parameter record for C9's witness: a required string, a
required int, an optional (pointer) string, an unexported field and a
`json:"-"` field. -/
def demoFields : List FieldDesc :=
  [ { name := "Name", jsonTag := "name", requiredTag := "", descriptionTag := "the name",
      typ := GoType.string, exported := true },
    { name := "Age", jsonTag := "age", requiredTag := "", descriptionTag := "",
      typ := GoType.int, exported := true },
    { name := "Nickname", jsonTag := "nickname", requiredTag := "", descriptionTag := "",
      typ := GoType.ptr GoType.string, exported := true },
    { name := "secret", jsonTag := "", requiredTag := "", descriptionTag := "",
      typ := GoType.string, exported := false },
    { name := "Skip", jsonTag := "-", requiredTag := "", descriptionTag := "",
      typ := GoType.string, exported := true } ]

/-- C9 witness: the theorem at the concrete record above. -/
theorem C9_witness :
    GenerateJSONSchemaFromToolDef
      { name := "demo", description := "demo tool",
        parameters := (GenerateToolParameters demoFields).map toolParamOfMap }
    = Json.obj (("type", Json.str "object")
        :: ("properties", Json.obj ((includedFields demoFields).map
              (fun f => (fieldParamName f, generateSchemaForType f.typ))))
        :: (if requiredNames demoFields = [] then []
            else [("required", Json.arr ((requiredNames demoFields).map Json.str))])) :=
  C9_theorem "demo" "demo tool" demoFields (by decide)

/-! ## Tool loop (C1, C2, C10) -/

/-- One response tool call is fully servable: the tool exists, its
arguments decode, and its execution succeeds. -/
def toolCallOkB (tools : List Tool) (tc : ToolCallC) : Bool :=
  match findTool tools tc.name with
  | none => false
  | some t =>
    match t.decodeArgs tc.args with
    | .error _ => false
    | .ok a =>
      match t.exec a with
      | .error _ => false
      | .ok _ => true

theorem runTools_ok (tools : List Tool) :
    ∀ tcs : List ToolCallC, (∀ tc ∈ tcs, toolCallOkB tools tc = true) →
      ∃ rs, runTools tools tcs = .ok rs ∧ rs.length = tcs.length := by
  intro tcs
  induction tcs with
  | nil => intro _; exact ⟨[], rfl, rfl⟩
  | cons tc rest ih =>
    intro h
    have htc := h tc (List.mem_cons_self _ _)
    obtain ⟨rs, hrs, hlen⟩ := ih (fun x hx => h x (List.mem_cons_of_mem _ hx))
    cases hft : findTool tools tc.name with
    | none =>
      rw [show toolCallOkB tools tc = false from by simp [toolCallOkB, hft]] at htc
      cases htc
    | some t =>
      cases hdec : t.decodeArgs tc.args with
      | error e =>
        rw [show toolCallOkB tools tc = false from by simp [toolCallOkB, hft, hdec]] at htc
        cases htc
      | ok a =>
        cases hex : t.exec a with
        | error e =>
          rw [show toolCallOkB tools tc = false from by simp [toolCallOkB, hft, hdec, hex]] at htc
          cases htc
        | ok output =>
          refine ⟨⟨tc.callID, tc.name, output⟩ :: rs, ?_, by simp [hlen]⟩
          simp only [runTools, hft, hdec, hex, hrs]
          rfl

theorem mapToolCalls_of_parsed (tcs : List ToolCallC) :
    ∃ out, mapToolCalls ((toolCallsMessage tcs).toolCalls) = .ok out := by
  unfold toolCallsMessage
  induction tcs with
  | nil => exact ⟨[], rfl⟩
  | cons tc rest ih =>
    obtain ⟨out, hout⟩ := ih
    simp only [List.map_cons]
    by_cases hlen : tc.args.length > 0
    · cases hp : parseJson tc.args with
      | none =>
        refine ⟨⟨tc.callID, tc.name, []⟩ :: out, ?_⟩
        simp only [mapToolCalls, if_pos hlen, hp]
        simp only [Option.map_none']
        rw [hout]
        rfl
      | some j =>
        refine ⟨⟨tc.callID, tc.name, renderJson j⟩ :: out, ?_⟩
        simp only [mapToolCalls, if_pos hlen, hp]
        simp only [Option.map_some']
        rw [hout]
        rfl
    · refine ⟨⟨tc.callID, tc.name, []⟩ :: out, ?_⟩
      simp only [mapToolCalls, if_neg hlen]
      rw [hout]
      rfl

theorem mapMessages_append_ok (a : List Message) :
    ∀ (b : List Message) (ma mb : List MessageC), mapMessages a = .ok ma →
      mapMessages b = .ok mb → mapMessages (a ++ b) = .ok (ma ++ mb) := by
  induction a with
  | nil =>
    intro b ma mb ha hb
    cases ha
    simpa using hb
  | cons m rest ih =>
    intro b ma mb ha hb
    cases htc : mapToolCalls m.toolCalls with
    | error e =>
      rw [show mapMessages (m :: rest) = .error e from by
        simp only [mapMessages, htc]] at ha
      cases ha
    | ok tcs =>
      cases hrest : mapMessages rest with
      | error e =>
        rw [show mapMessages (m :: rest) = .error e from by
          simp only [mapMessages, htc, hrest]; rfl] at ha
        cases ha
      | ok mrest =>
        rw [show mapMessages (m :: rest)
            = .ok (⟨m.role, m.content, m.images, tcs, mapToolResults m.toolResults⟩ :: mrest) from by
          simp only [mapMessages, htc, hrest]; rfl] at ha
        cases ha
        have hthis := ih b mrest mb hrest hb
        simp only [List.cons_append, mapMessages, htc, List.append_eq, hthis]
        rfl

theorem mapMessages_toolCallsMessage_ok (tcs : List ToolCallC) :
    ∃ m, mapMessages [toolCallsMessage tcs] = .ok m := by
  obtain ⟨out, hout⟩ := mapToolCalls_of_parsed tcs
  refine ⟨[⟨"assistant", "", [], out, []⟩], ?_⟩
  simp only [mapMessages, hout]
  rfl

theorem mapMessages_toolResultsMessage_ok (rs : List PToolResult) :
    mapMessages [toolResultsMessage rs] = .ok [⟨"assistant", "", [], [], mapToolResults rs⟩] := rfl

theorem execLoop_allToolCalls (rc : Nat → Except GoError RawResponse) (req : Request)
    (mc : ModelConfig) (defs : List ToolDef) (schema : String) (resps : Nat → RawResponse)
    (hrc : ∀ k, rc k = .ok (resps k))
    (htc : ∀ k, (resps k).toolCalls ≠ [])
    (hok : ∀ k, ∀ tc ∈ (resps k).toolCalls, toolCallOkB req.tools tc = true) :
    ∀ (n callIdx : Nat) (conv : List Message) (trace : List CallParams),
      (∃ mconv, mapMessages conv = .ok mconv) →
      (execLoop rc req mc defs schema n callIdx conv trace).1 = ("", some .maxToolTurns) ∧
      (execLoop rc req mc defs schema n callIdx conv trace).2.length = trace.length + n := by
  intro n
  induction n with
  | zero =>
    intro callIdx conv trace _
    constructor
    · rfl
    · simp [execLoop]
  | succ n ih =>
    intro callIdx conv trace hconv
    obtain ⟨mconv, hmconv⟩ := hconv
    have hne : ((resps callIdx).toolCalls.isEmpty) = false := by
      cases hx : (resps callIdx).toolCalls with
      | nil => exact absurd hx (htc callIdx)
      | cons a b => rfl
    obtain ⟨rs, hrs, hlen⟩ := runTools_ok req.tools (resps callIdx).toolCalls (hok callIdx)
    have hrsne : rs.isEmpty = false := by
      cases hx : rs with
      | nil =>
        rw [hx] at hlen
        cases hy : (resps callIdx).toolCalls with
        | nil => exact absurd hy (htc callIdx)
        | cons a b => rw [hy] at hlen; simp at hlen
      | cons a b => rfl
    obtain ⟨mtc, hmtc⟩ := mapMessages_toolCallsMessage_ok (resps callIdx).toolCalls
    have hconv1 : mapMessages (conv ++ [toolCallsMessage (resps callIdx).toolCalls])
        = .ok (mconv ++ mtc) := mapMessages_append_ok _ _ _ _ hmconv hmtc
    have hconv2 : mapMessages ((conv ++ [toolCallsMessage (resps callIdx).toolCalls])
          ++ [toolResultsMessage rs])
        = .ok ((mconv ++ mtc) ++ [⟨"assistant", "", [], [], mapToolResults rs⟩]) :=
      mapMessages_append_ok _ _ _ _ hconv1 (mapMessages_toolResultsMessage_ok rs)
    have hstep : execLoop rc req mc defs schema (n + 1) callIdx conv trace
        = execLoop rc req mc defs schema n (callIdx + 1)
            ((conv ++ [toolCallsMessage (resps callIdx).toolCalls]) ++ [toolResultsMessage rs])
            ({ model := mc.model, messages := mconv, toolDefs := defs, outputSchema := schema,
               maxTokens := boundedInt req.maxTokens mc.maxOutputTokens,
               temperature := req.temperature, topP := req.topP } :: trace) := by
      simp only [execLoop, hmconv, hrc callIdx, hne, hrs, hrsne]
      rfl
    rw [hstep]
    have := ih (callIdx + 1)
      ((conv ++ [toolCallsMessage (resps callIdx).toolCalls]) ++ [toolResultsMessage rs])
      ({ model := mc.model, messages := mconv, toolDefs := defs, outputSchema := schema,
         maxTokens := boundedInt req.maxTokens mc.maxOutputTokens,
         temperature := req.temperature, topP := req.topP } :: trace)
      ⟨_, hconv2⟩
    refine ⟨this.1, ?_⟩
    rw [this.2]
    simp
    omega

/-- C2: for the turn budget the loop actually runs (`maxToolTurns`, with
non-positive values defaulted to 3), if every adapter response carries a
non-empty `tool_calls` list naming known tools whose arguments decode and
whose execution succeeds, `executeInternal` performs exactly budget-many
adapter `Call` invocations and returns `ErrMaxToolTurns` with an empty
result string. -/
theorem C2_theorem (r : RouterCfg) (rc : Nat → Except GoError RawResponse)
    (sanitize : String → String) (req : Request) (outputSchema : String)
    (requireStructured : Bool) (mc : ModelConfig) (key : String) (resps : Nat → RawResponse)
    (hsel : selectModel r.models req = .ok (mc, key))
    (hprov : providerKnown mc.provider = true)
    (hmsgs : ∃ m0, mapMessages req.messages = .ok m0)
    (hrc : ∀ k, rc k = .ok (resps k))
    (htc : ∀ k, (resps k).toolCalls ≠ [])
    (hok : ∀ k, ∀ tc ∈ (resps k).toolCalls, toolCallOkB req.tools tc = true) :
    (executeInternal r rc sanitize req outputSchema requireStructured).1
      = ("", some .maxToolTurns) ∧
    (executeInternal r rc sanitize req outputSchema requireStructured).2.length
      = (if r.maxToolTurns ≤ 0 then 3 else r.maxToolTurns).toNat := by
  have hloop := execLoop_allToolCalls rc req mc
    (req.tools.map (fun t =>
      { name := t.name, description := t.description,
        parameters := (GenerateToolParameters t.paramFields).map toolParamOfMap }))
    (if requireStructured = false ∨ mc.supportsStructuredOutput = false then ""
     else if outputSchema ≠ "" then sanitize outputSchema else outputSchema)
    resps hrc htc hok
    (if r.maxToolTurns ≤ 0 then 3 else r.maxToolTurns).toNat 0 req.messages [] hmsgs
  have hunfold : executeInternal r rc sanitize req outputSchema requireStructured
      = execLoop rc req mc
          (req.tools.map (fun t =>
            { name := t.name, description := t.description,
              parameters := (GenerateToolParameters t.paramFields).map toolParamOfMap }))
          (if requireStructured = false ∨ mc.supportsStructuredOutput = false then ""
           else if outputSchema ≠ "" then sanitize outputSchema else outputSchema)
          (if r.maxToolTurns ≤ 0 then 3 else r.maxToolTurns).toNat 0 req.messages [] := by
    simp only [executeInternal, hsel, hprov]
    rfl
  rw [hunfold]
  exact ⟨hloop.1, by rw [hloop.2]; simp⟩

/-- The adapter response used by the concrete loop runs: always one tool
call to `echo` with empty-object arguments. -/
def respAlways : RawResponse :=
  { content := "", toolCalls := [⟨"id", "echo", ['{', '}']⟩], usage := ⟨0, 0, 0⟩ }

/-- C1: the claim `turn budget = max(MaxToolTurns, 3)` is false.  With
`MaxToolTurns = 1` and an adapter that always requests a tool call,
`executeInternal` performs exactly one adapter call — the code only
replaces non-positive budgets with 3 — whereas `max(1, 3) = 3` would
demand three. -/
theorem C1_counterexample :
    (executeInternal ⟨regW, 1⟩ rcAlways id req1 "" false).2.length = 1 ∧
    (executeInternal ⟨regW, 1⟩ rcAlways id req1 "" false).1 = ("", some .maxToolTurns) ∧
    max (1 : Int) 3 = 3 ∧ (1 : Nat) ≠ 3 :=
  ⟨rfl, rfl, rfl, by decide⟩

/-- C1 (amended): the turn budget `executeInternal` uses equals
`MaxToolTurns` whenever that is positive, and 3 when it is zero or
negative; the unset default established by `NewRouter` is 5 (so an unset
budget runs 5 turns, not 3).  Behaviourally: with an adapter that always
requests servable tool calls, the number of adapter calls is exactly that
budget. -/
theorem C1_theorem (r : RouterCfg) (rc : Nat → Except GoError RawResponse)
    (sanitize : String → String) (req : Request) (mc : ModelConfig) (key : String)
    (resps : Nat → RawResponse)
    (hsel : selectModel r.models req = .ok (mc, key))
    (hprov : providerKnown mc.provider = true)
    (hmsgs : ∃ m0, mapMessages req.messages = .ok m0)
    (hrc : ∀ k, rc k = .ok (resps k))
    (htc : ∀ k, (resps k).toolCalls ≠ [])
    (hok : ∀ k, ∀ tc ∈ (resps k).toolCalls, toolCallOkB req.tools tc = true) :
    (executeInternal r rc sanitize req "" false).2.length
      = (if r.maxToolTurns ≤ 0 then 3 else r.maxToolTurns).toNat ∧
    (0 < r.maxToolTurns →
      (executeInternal r rc sanitize req "" false).2.length = r.maxToolTurns.toNat) ∧
    (r.maxToolTurns ≤ 0 →
      (executeInternal r rc sanitize req "" false).2.length = 3) ∧
    (NewRouter r.models []).maxToolTurns = 5 := by
  have h := C2_theorem r rc sanitize req "" false mc key resps hsel hprov hmsgs hrc htc hok
  refine ⟨h.2, ?_, ?_, rfl⟩
  · intro hpos
    rw [h.2, if_neg (by omega)]
  · intro hnonpos
    rw [h.2, if_pos hnonpos]
    rfl

/-- C1 witness: the amended theorem at a concrete router with
`MaxToolTurns = 2`, which runs exactly 2 turns. -/
theorem C1_witness :
    (executeInternal ⟨regW, 2⟩ rcAlways id req1 "" false).2.length
      = (if (2 : Int) ≤ 0 then (3 : Int) else 2).toNat ∧
    (0 < (2 : Int) →
      (executeInternal ⟨regW, 2⟩ rcAlways id req1 "" false).2.length = (2 : Int).toNat) ∧
    ((2 : Int) ≤ 0 →
      (executeInternal ⟨regW, 2⟩ rcAlways id req1 "" false).2.length = 3) ∧
    (NewRouter regW []).maxToolTurns = 5 :=
  C1_theorem ⟨regW, 2⟩ rcAlways id req1 mcWebBase "gpt4o" (fun _ => respAlways)
    rfl rfl ⟨_, rfl⟩ (fun _ => rfl)
    (fun _ => (by simp [respAlways] : respAlways.toolCalls ≠ []))
    (fun _ tc htc => by
      rcases List.mem_singleton.mp htc with rfl
      rfl)

/-- C2 witness: the theorem at the same concrete run (budget 2): two
adapter calls, then `ErrMaxToolTurns` with an empty result. -/
theorem C2_witness :
    (executeInternal ⟨regW, 2⟩ rcAlways id req1 "" false).1 = ("", some .maxToolTurns) ∧
    (executeInternal ⟨regW, 2⟩ rcAlways id req1 "" false).2.length
      = (if (2 : Int) ≤ 0 then (3 : Int) else 2).toNat :=
  C2_theorem ⟨regW, 2⟩ rcAlways id req1 "" false mcWebBase "gpt4o" (fun _ => respAlways)
    rfl rfl ⟨_, rfl⟩ (fun _ => rfl)
    (fun _ => (by simp [respAlways] : respAlways.toolCalls ≠ []))
    (fun _ tc htc => by
      rcases List.mem_singleton.mp htc with rfl
      rfl)

theorem execLoop_trace_maxTokens (rc : Nat → Except GoError RawResponse) (req : Request)
    (mc : ModelConfig) (defs : List ToolDef) (schema : String) :
    ∀ (n callIdx : Nat) (conv : List Message) (trace : List CallParams),
      (∀ p ∈ trace, p.maxTokens = boundedInt req.maxTokens mc.maxOutputTokens) →
      ∀ p ∈ (execLoop rc req mc defs schema n callIdx conv trace).2,
        p.maxTokens = boundedInt req.maxTokens mc.maxOutputTokens := by
  intro n
  induction n with
  | zero =>
    intro callIdx conv trace htrace p hp
    simp only [execLoop, List.mem_reverse] at hp
    exact htrace p hp
  | succ n ih =>
    intro callIdx conv trace htrace p hp
    cases hmm : mapMessages conv with
    | error e =>
      rw [show execLoop rc req mc defs schema (n + 1) callIdx conv trace
          = (("", some e), trace.reverse) from by simp only [execLoop, hmm]] at hp
      exact htrace p (by simpa using hp)
    | ok mconv =>
      cases hrk : rc callIdx with
      | error e =>
        rw [show execLoop rc req mc defs schema (n + 1) callIdx conv trace
            = (("", some e),
               ({ model := mc.model, messages := mconv, toolDefs := defs,
                  outputSchema := schema,
                  maxTokens := boundedInt req.maxTokens mc.maxOutputTokens,
                  temperature := req.temperature, topP := req.topP } :: trace).reverse) from by
          simp only [execLoop, hmm, hrk]] at hp
        simp only [List.mem_reverse] at hp
        rcases List.mem_cons.mp hp with rfl | hp
        · rfl
        · exact htrace p hp
      | ok resp =>
        by_cases hemp : resp.toolCalls.isEmpty = true
        · rw [show execLoop rc req mc defs schema (n + 1) callIdx conv trace
              = ((resp.content, none),
                 ({ model := mc.model, messages := mconv, toolDefs := defs,
                    outputSchema := schema,
                    maxTokens := boundedInt req.maxTokens mc.maxOutputTokens,
                    temperature := req.temperature, topP := req.topP } :: trace).reverse) from by
            simp only [execLoop, hmm, hrk, if_pos hemp]] at hp
          simp only [List.mem_reverse] at hp
          rcases List.mem_cons.mp hp with rfl | hp
          · rfl
          · exact htrace p hp
        · cases hrt : runTools req.tools resp.toolCalls with
          | error e =>
            rw [show execLoop rc req mc defs schema (n + 1) callIdx conv trace
                = (("", some e),
                   ({ model := mc.model, messages := mconv, toolDefs := defs,
                      outputSchema := schema,
                      maxTokens := boundedInt req.maxTokens mc.maxOutputTokens,
                      temperature := req.temperature, topP := req.topP } :: trace).reverse) from by
              simp only [execLoop, hmm, hrk, if_neg hemp, hrt]] at hp
            simp only [List.mem_reverse] at hp
            rcases List.mem_cons.mp hp with rfl | hp
            · rfl
            · exact htrace p hp
          | ok results =>
            rw [show execLoop rc req mc defs schema (n + 1) callIdx conv trace
                = execLoop rc req mc defs schema n (callIdx + 1)
                    (if results.isEmpty = true then conv ++ [toolCallsMessage resp.toolCalls]
                     else (conv ++ [toolCallsMessage resp.toolCalls])
                          ++ [toolResultsMessage results])
                    ({ model := mc.model, messages := mconv, toolDefs := defs,
                       outputSchema := schema,
                       maxTokens := boundedInt req.maxTokens mc.maxOutputTokens,
                       temperature := req.temperature, topP := req.topP } :: trace) from by
              simp only [execLoop, hmm, hrk, if_neg hemp, hrt]] at hp
            refine ih (callIdx + 1) _ _ ?_ p hp
            intro q hq
            rcases List.mem_cons.mp hq with rfl | hq
            · rfl
            · exact htrace q hq

/-- C10: every `CallParams` the orchestrator passes to the adapter
carries `MaxTokens = boundedInt(Request.MaxTokens, mc.MaxOutputTokens)`,
which equals: the request's value when the model cap is non-positive; the
cap when the request's value is non-positive or exceeds the cap; the
request's value otherwise — and never exceeds a positive cap. -/
theorem C10_theorem (r : RouterCfg) (rc : Nat → Except GoError RawResponse)
    (sanitize : String → String) (req : Request) (outputSchema : String)
    (requireStructured : Bool) (mc : ModelConfig) (key : String)
    (hsel : selectModel r.models req = .ok (mc, key)) :
    (∀ p ∈ (executeInternal r rc sanitize req outputSchema requireStructured).2,
       p.maxTokens = boundedInt req.maxTokens mc.maxOutputTokens) ∧
    (mc.maxOutputTokens ≤ 0 →
       boundedInt req.maxTokens mc.maxOutputTokens = req.maxTokens) ∧
    (0 < mc.maxOutputTokens → (req.maxTokens ≤ 0 ∨ req.maxTokens > mc.maxOutputTokens) →
       boundedInt req.maxTokens mc.maxOutputTokens = mc.maxOutputTokens) ∧
    (0 < mc.maxOutputTokens → 0 < req.maxTokens → req.maxTokens ≤ mc.maxOutputTokens →
       boundedInt req.maxTokens mc.maxOutputTokens = req.maxTokens) ∧
    (0 < mc.maxOutputTokens →
       boundedInt req.maxTokens mc.maxOutputTokens ≤ mc.maxOutputTokens) := by
  refine ⟨?_, ?_, ?_, ?_, ?_⟩
  · intro p hp
    by_cases hprov : providerKnown mc.provider = true
    · have hunfold : executeInternal r rc sanitize req outputSchema requireStructured
          = execLoop rc req mc
              (req.tools.map (fun t =>
                { name := t.name, description := t.description,
                  parameters := (GenerateToolParameters t.paramFields).map toolParamOfMap }))
              (if requireStructured = false ∨ mc.supportsStructuredOutput = false then ""
               else if outputSchema ≠ "" then sanitize outputSchema else outputSchema)
              (if r.maxToolTurns ≤ 0 then 3 else r.maxToolTurns).toNat 0 req.messages [] := by
        simp only [executeInternal, hsel, hprov]
        rfl
      rw [hunfold] at hp
      exact execLoop_trace_maxTokens rc req mc _ _ _ 0 req.messages []
        (by intro q hq; cases hq) p hp
    · have hprov' : providerKnown mc.provider = false := by
        cases hx : providerKnown mc.provider with
        | true => exact absurd hx hprov
        | false => rfl
      rw [show executeInternal r rc sanitize req outputSchema requireStructured
          = (("", some .unknownProvider), []) from by
        simp [executeInternal, hsel, hprov']] at hp
      cases hp
  · intro h
    unfold boundedInt
    rw [if_pos h]
  · intro hcap hreq
    unfold boundedInt
    rw [if_neg (by omega)]
    rcases hreq with h | h
    · rw [if_pos h]
    · rw [if_neg (by omega), if_pos h]
  · intro hcap hreq hle
    unfold boundedInt
    rw [if_neg (by omega), if_neg (by omega), if_neg (by omega)]
  · intro hcap
    unfold boundedInt
    split_ifs <;> omega

/-- C10 witness: the theorem at the concrete run of the C1/C2 witnesses
(cap 0, so the request's value passes through). -/
theorem C10_witness :
    (∀ p ∈ (executeInternal ⟨regW, 2⟩ rcAlways id req1 "" false).2,
       p.maxTokens = boundedInt req1.maxTokens mcWebBase.maxOutputTokens) ∧
    (mcWebBase.maxOutputTokens ≤ 0 →
       boundedInt req1.maxTokens mcWebBase.maxOutputTokens = req1.maxTokens) ∧
    (0 < mcWebBase.maxOutputTokens →
       (req1.maxTokens ≤ 0 ∨ req1.maxTokens > mcWebBase.maxOutputTokens) →
       boundedInt req1.maxTokens mcWebBase.maxOutputTokens = mcWebBase.maxOutputTokens) ∧
    (0 < mcWebBase.maxOutputTokens → 0 < req1.maxTokens →
       req1.maxTokens ≤ mcWebBase.maxOutputTokens →
       boundedInt req1.maxTokens mcWebBase.maxOutputTokens = req1.maxTokens) ∧
    (0 < mcWebBase.maxOutputTokens →
       boundedInt req1.maxTokens mcWebBase.maxOutputTokens ≤ mcWebBase.maxOutputTokens) :=
  C10_theorem ⟨regW, 2⟩ rcAlways id req1 "" false mcWebBase "gpt4o" rfl

/-! ## Adapter encoding of tool results (C6) -/

/-- A wire message list with one unserialisable tool result. -/
def msgsBad : List MessageC :=
  [⟨"assistant", "", [], [], [⟨"id1", "t", GoVal.unserializable "chan int"⟩]⟩]

/-- Call parameters carrying `msgsBad`. -/
def paramsBad : CallParams := ⟨"m", msgsBad, [], "", 0, 0, 0⟩

/-- C6: the claim that *every* adapter substitutes `{"error": ...}` for a
non-serialisable tool result and still proceeds is refuted by the Gemini
adapter: on a message whose tool result cannot be marshalled, the OpenAI
encoder substitutes the error object, but the Gemini `Call` fails its
payload marshal and returns an error instead of proceeding. -/
theorem C6_counterexample :
    Gemini.callEncode paramsBad = .error .geminiMarshalPayload ∧
    OpenAI.mapChatMessages msgsBad
      = [OpenAI.WireMsg.toolResultMsg "id1" "t"
          (renderJson (Json.obj
            [("error", Json.str "failed to marshal tool result: chan int")]))] :=
  ⟨rfl, rfl⟩

theorem fcScan_parts (items : List (List (String × Json))) :
    ∀ ps, Gemini.fcScan items = some ps →
      ∀ p ∈ ps, Gemini.gemPartSerializable p = true := by
  induction items with
  | nil =>
    intro ps hps p hp
    cases hps
    cases hp
  | cons item rest ih =>
    intro ps hps p hp
    unfold Gemini.fcScan at hps
    cases h1 : jlookup item "tool" with
    | none => rw [h1] at hps; cases hps
    | some jt =>
      rw [h1] at hps
      cases jt with
      | str name =>
        cases h2 : jlookup item "args" with
        | none => rw [h2] at hps; cases hps
        | some ja =>
          rw [h2] at hps
          cases ja with
          | obj args =>
            cases h3 : Gemini.fcScan rest with
            | none => rw [h3] at hps; cases hps
            | some ps' =>
              rw [h3] at hps
              simp only [Option.map_some'] at hps
              cases hps
              rcases List.mem_cons.mp hp with rfl | hp
              · rfl
              · exact ih ps' h3 p hp
          | null => cases hps
          | bool b => cases hps
          | num q => cases hps
          | str s => cases hps
          | arr xs => cases hps
      | null => cases hps
      | bool b => cases hps
      | num q => cases hps
      | arr xs => cases hps
      | obj ms => cases hps

theorem frScan_parts (items : List (List (String × Json))) :
    ∀ p ∈ (Gemini.frScan items).1, Gemini.gemPartSerializable p = true := by
  induction items with
  | nil => intro p hp; cases hp
  | cons item rest ih =>
    intro p hp
    unfold Gemini.frScan at hp
    cases h1 : jlookup item "tool" with
    | none => rw [h1] at hp; exact ih p hp
    | some jt =>
      rw [h1] at hp
      cases jt with
      | str name =>
        rcases List.mem_cons.mp hp with rfl | hp
        · rfl
        · exact ih p hp
      | null => exact ih p hp
      | bool b => exact ih p hp
      | num q => exact ih p hp
      | arr xs => exact ih p hp
      | obj ms => exact ih p hp

theorem mapOneMessage_serializable (m : MessageC) :
    ((Gemini.mapOneMessage m).parts.all Gemini.gemPartSerializable = false) ↔
      (m.toolCalls = [] ∧ ∃ tr ∈ m.toolResults, ∃ reason,
        tr.result = GoVal.unserializable reason) := by
  by_cases htc : m.toolCalls.isEmpty = true
  · have htc' : m.toolCalls = [] := by
      cases hx : m.toolCalls with
      | nil => rfl
      | cons a b => rw [hx] at htc; cases htc
    by_cases htr : m.toolResults.isEmpty = true
    · have htr' : m.toolResults = [] := by
        cases hx : m.toolResults with
        | nil => rfl
        | cons a b => rw [hx] at htr; cases htr
      have hparts : (Gemini.mapOneMessage m).parts.all Gemini.gemPartSerializable = true := by
        have hstep : Gemini.mapOneMessage m =
            (let pathA : Option (List Gemini.GemPart) :=
              if m.content ≠ "" ∧ m.role = "assistant" then
                match ((parseJson m.content.toList).bind asMapArray).bind Gemini.fcScan with
                | some (p :: ps) => some (p :: ps)
                | _ => none
              else none
            match pathA with
            | some parts => ⟨m.role, parts⟩
            | none =>
              let parts :=
                if m.content ≠ "" then
                  if m.role = "assistant" then
                    let pb : List Gemini.GemPart × Bool :=
                      match (parseJson m.content.toList).bind asObj with
                      | some o =>
                        match jlookup o "tool" with
                        | some (Json.str toolName) =>
                          ([Gemini.GemPart.functionResponse toolName (Gemini.respOf o)], true)
                        | _ => ([], false)
                      | none =>
                        match (parseJson m.content.toList).bind asMapArray with
                        | some items => Gemini.frScan items
                        | none => ([], false)
                    if pb.2 then pb.1 else [Gemini.GemPart.text m.content]
                  else [Gemini.GemPart.text m.content]
                else []
              let parts := parts ++ m.images.map Gemini.GemPart.fileData
              let role :=
                match parts.head? with
                | some (Gemini.GemPart.functionResponse _ _) => "tool"
                | _ => m.role
              ⟨if role = "assistant" then "model" else role, parts⟩) := by
          unfold Gemini.mapOneMessage
          rw [if_neg (by simp [htc]), if_neg (by simp [htr])]
        rw [hstep]
        cases hA : (if m.content ≠ "" ∧ m.role = "assistant" then
            match ((parseJson m.content.toList).bind asMapArray).bind Gemini.fcScan with
            | some (p :: ps) => some (p :: ps)
            | _ => none
          else none) with
        | some parts =>
          simp only [hA]
          rw [List.all_eq_true]
          intro p hp
          have hAsome : ((parseJson m.content.toList).bind asMapArray).bind Gemini.fcScan
              = some parts ∧ parts ≠ [] := by
            by_cases hcond : m.content ≠ "" ∧ m.role = "assistant"
            · rw [if_pos hcond] at hA
              cases hscan : ((parseJson m.content.toList).bind asMapArray).bind Gemini.fcScan with
              | none => rw [hscan] at hA; cases hA
              | some l =>
                cases l with
                | nil => rw [hscan] at hA; cases hA
                | cons x xs =>
                  rw [hscan] at hA
                  cases hA
                  exact ⟨rfl, by simp⟩
            · rw [if_neg hcond] at hA; cases hA
          obtain ⟨hscan, -⟩ := hAsome
          cases hpj : (parseJson m.content.toList).bind asMapArray with
          | none => rw [hpj] at hscan; cases hscan
          | some items =>
            rw [hpj] at hscan
            exact fcScan_parts items parts hscan p hp
        | none =>
          simp only [hA]
          rw [List.all_eq_true]
          intro p hp
          rcases List.mem_append.mp hp with hp | hp
          · by_cases hct : m.content ≠ ""
            · rw [if_pos hct] at hp
              by_cases hrole : m.role = "assistant"
              · rw [if_pos hrole] at hp
                cases hobj : (parseJson m.content.toList).bind asObj with
                | some o =>
                  simp only [hobj] at hp
                  cases hjt : jlookup o "tool" with
                  | some jt =>
                    cases jt with
                    | str toolName =>
                      simp only [hjt, if_pos rfl] at hp
                      rcases List.mem_singleton.mp hp with rfl
                      simp [Gemini.gemPartSerializable, Gemini.respOf]
                    | null =>
                      simp only [hjt] at hp
                      rcases List.mem_singleton.mp hp with rfl
                      rfl
                    | bool b =>
                      simp only [hjt] at hp
                      rcases List.mem_singleton.mp hp with rfl
                      rfl
                    | num q =>
                      simp only [hjt] at hp
                      rcases List.mem_singleton.mp hp with rfl
                      rfl
                    | arr xs =>
                      simp only [hjt] at hp
                      rcases List.mem_singleton.mp hp with rfl
                      rfl
                    | obj ms =>
                      simp only [hjt] at hp
                      rcases List.mem_singleton.mp hp with rfl
                      rfl
                  | none =>
                    simp only [hjt] at hp
                    rcases List.mem_singleton.mp hp with rfl
                    rfl
                | none =>
                  simp only [hobj] at hp
                  cases harr : (parseJson m.content.toList).bind asMapArray with
                  | some items =>
                    simp only [harr] at hp
                    by_cases hb : (Gemini.frScan items).2 = true
                    · rw [if_pos hb] at hp
                      exact frScan_parts items p hp
                    · rw [if_neg hb] at hp
                      rcases List.mem_singleton.mp hp with rfl
                      rfl
                  | none =>
                    simp only [harr] at hp
                    rcases List.mem_singleton.mp hp with rfl
                    rfl
              · rw [if_neg hrole] at hp
                rcases List.mem_singleton.mp hp with rfl
                rfl
            · rw [if_neg hct] at hp
              cases hp
          · obtain ⟨img, _, rfl⟩ := List.mem_map.mp hp
            rfl
      rw [hparts]
      simp only [Bool.true_eq_false, false_iff]
      rintro ⟨-, tr, htr2, -⟩
      rw [htr'] at htr2
      cases htr2
    · have hstep : Gemini.mapOneMessage m =
          ⟨"tool", m.toolResults.map (fun tr =>
            Gemini.GemPart.functionResponse tr.name tr.result)⟩ := by
        unfold Gemini.mapOneMessage
        rw [if_neg (by simp [htc]), if_pos (by simp [htr])]
      rw [hstep]
      constructor
      · intro hall
        refine ⟨htc', ?_⟩
        rw [← Bool.not_eq_true, List.all_eq_true] at hall
        push_neg at hall
        obtain ⟨p, hp, hbad⟩ := hall
        obtain ⟨tr, htr2, rfl⟩ := List.mem_map.mp hp
        cases hres : tr.result with
        | json j =>
          exfalso
          apply hbad
          simp [Gemini.gemPartSerializable, hres]
        | unserializable reason => exact ⟨tr, htr2, reason, hres⟩
      · rintro ⟨-, tr, htr2, reason, hres⟩
        rw [← Bool.not_eq_true, List.all_eq_true]
        push_neg
        refine ⟨Gemini.GemPart.functionResponse tr.name tr.result,
          List.mem_map_of_mem _ htr2, ?_⟩
        rw [hres]
        simp [Gemini.gemPartSerializable]
  · have hstep : Gemini.mapOneMessage m =
        ⟨if m.role = "assistant" then "model" else m.role,
         m.toolCalls.map (fun it =>
           Gemini.GemPart.functionCall it.name
             (if it.args.length > 0 then parseJson it.args else none))⟩ := by
      unfold Gemini.mapOneMessage
      rw [if_pos (show m.toolCalls.isEmpty = false by
        revert htc; cases m.toolCalls.isEmpty <;> simp)]
    rw [hstep]
    have hall : (m.toolCalls.map (fun it =>
        Gemini.GemPart.functionCall it.name
          (if it.args.length > 0 then parseJson it.args else none))).all
          Gemini.gemPartSerializable = true := by
      rw [List.all_eq_true]
      intro p hp
      obtain ⟨it, _, rfl⟩ := List.mem_map.mp hp
      rfl
    rw [hall]
    simp only [Bool.true_eq_false, false_iff]
    rintro ⟨htc', -⟩
    rw [htc'] at htc
    exact htc rfl

theorem encodePayload_contents (params : CallParams) :
    (Gemini.encodePayload params).contents =
      Gemini.mapMessages (params.messages.filter (fun m => !(m.role == "system"))) := by
  simp only [Gemini.encodePayload]
  split_ifs <;> rfl

theorem mapChatMessages_toolResult_mem (msgs : List MessageC) (m : MessageC)
    (tr : ToolResultC) (hm : m ∈ msgs) (htc : m.toolCalls = [])
    (htr : tr ∈ m.toolResults) :
    OpenAI.WireMsg.toolResultMsg tr.callID tr.name (OpenAI.toolResultContent tr.result)
      ∈ OpenAI.mapChatMessages msgs := by
  induction msgs with
  | nil => cases hm
  | cons m0 rest ih =>
    rcases List.mem_cons.mp hm with rfl | hm'
    · have htc' : m.toolCalls.isEmpty = true := by rw [htc]; rfl
      have htr' : m.toolResults.isEmpty = false := by
        cases hx : m.toolResults with
        | nil => rw [hx] at htr; cases htr
        | cons a b => rfl
      unfold OpenAI.mapChatMessages
      rw [if_neg (by simp [htc']), if_pos htr']
      exact List.mem_append_left _ (List.mem_map_of_mem _ htr)
    · have hrest := ih hm'
      unfold OpenAI.mapChatMessages
      by_cases h1 : m0.toolCalls.isEmpty = false
      · rw [if_pos h1]
        exact List.mem_cons_of_mem _ hrest
      · rw [if_neg h1]
        by_cases h2 : m0.toolResults.isEmpty = false
        · rw [if_pos h2]
          exact List.mem_append_right _ hrest
        · rw [if_neg h2]
          exact List.mem_cons_of_mem _ hrest

theorem callEncode_fail_iff (params : CallParams) :
    Gemini.callEncode params = .error .geminiMarshalPayload ↔
      ∃ m ∈ params.messages, m.role ≠ "system" ∧ m.toolCalls = [] ∧
        ∃ tr ∈ m.toolResults, ∃ reason, tr.result = GoVal.unserializable reason := by
  have hmem : ∀ m : MessageC,
      m ∈ params.messages.filter (fun m => !(m.role == "system")) ↔
        (m ∈ params.messages ∧ m.role ≠ "system") := by
    intro m
    rw [List.mem_filter]
    constructor
    · rintro ⟨h1, h2⟩
      refine ⟨h1, ?_⟩
      simpa using h2
    · rintro ⟨h1, h2⟩
      exact ⟨h1, by simpa using h2⟩
  unfold Gemini.callEncode
  by_cases h : Gemini.payloadSerializable (Gemini.encodePayload params) = true
  · rw [if_pos h]
    simp only [reduceCtorEq, false_iff]
    rintro ⟨m, hm, hrole, htc, tr, htr, reason, hres⟩
    unfold Gemini.payloadSerializable at h
    rw [encodePayload_contents, List.all_eq_true] at h
    have hmf : m ∈ params.messages.filter (fun m => !(m.role == "system")) :=
      (hmem m).mpr ⟨hm, hrole⟩
    have hc := h _ (List.mem_map_of_mem Gemini.mapOneMessage hmf)
    have hbad := (mapOneMessage_serializable m).mpr ⟨htc, tr, htr, reason, hres⟩
    rw [hc] at hbad
    cases hbad
  · rw [if_neg h]
    simp only [true_iff]
    unfold Gemini.payloadSerializable at h
    rw [encodePayload_contents, List.all_eq_true] at h
    push_neg at h
    obtain ⟨c, hc, hcb⟩ := h
    obtain ⟨m, hmf, rfl⟩ := List.mem_map.mp hc
    have hbad : (Gemini.mapOneMessage m).parts.all Gemini.gemPartSerializable = false := by
      cases hx : (Gemini.mapOneMessage m).parts.all Gemini.gemPartSerializable with
      | false => rfl
      | true => exact absurd hx hcb
    obtain ⟨htc, tr, htr, reason, hres⟩ := (mapOneMessage_serializable m).mp hbad
    obtain ⟨hm, hrole⟩ := (hmem m).mp hmf
    exact ⟨m, hm, hrole, htc, tr, htr, reason, hres⟩

/-- C6 (amended): a tool result whose value cannot be marshalled is
handled differently by the two adapters.  The OpenAI encoder substitutes
the `{"error": "failed to marshal tool result: ..."\x7d` object as the
tool message's content and the request proceeds; the Gemini `Call`
instead fails its payload `json.Marshal` and aborts with an error -
exactly when some non-system message with no tool calls carries an
unserialisable tool result. -/
theorem C6_theorem (msgs : List MessageC) (m : MessageC) (tr : ToolResultC)
    (params : CallParams) (reason : String)
    (hm : m ∈ msgs) (htc : m.toolCalls = []) (htr : tr ∈ m.toolResults)
    (hres : tr.result = GoVal.unserializable reason) :
    (OpenAI.WireMsg.toolResultMsg tr.callID tr.name
        (renderJson (Json.obj
          [("error", Json.str ("failed to marshal tool result: " ++ reason))]))
      ∈ OpenAI.mapChatMessages msgs) ∧
    (Gemini.callEncode params = .error .geminiMarshalPayload ↔
      ∃ m' ∈ params.messages, m'.role ≠ "system" ∧ m'.toolCalls = [] ∧
        ∃ tr' ∈ m'.toolResults, ∃ r, tr'.result = GoVal.unserializable r) := by
  constructor
  · have := mapChatMessages_toolResult_mem msgs m tr hm htc htr
    rw [hres] at this
    exact this
  · exact callEncode_fail_iff params

theorem C6_witness :
    (OpenAI.WireMsg.toolResultMsg "id1" "t"
        (renderJson (Json.obj
          [("error", Json.str ("failed to marshal tool result: " ++ "chan int"))]))
      ∈ OpenAI.mapChatMessages msgsBad) ∧
    (Gemini.callEncode paramsBad = .error .geminiMarshalPayload ↔
      ∃ m' ∈ paramsBad.messages, m'.role ≠ "system" ∧ m'.toolCalls = [] ∧
        ∃ tr' ∈ m'.toolResults, ∃ r, tr'.result = GoVal.unserializable r) :=
  C6_theorem msgsBad
    ⟨"assistant", "", [], [], [⟨"id1", "t", GoVal.unserializable "chan int"⟩]⟩
    ⟨"id1", "t", GoVal.unserializable "chan int"⟩ paramsBad "chan int"
    (List.mem_singleton.mpr rfl) rfl (List.mem_singleton.mpr rfl) rfl
